import Mathlib

/-!
Verification of the api21 caching layer (Go sources under src/src/cache and
src/src/models) against its natural-language specification.

The Go code is shallowly embedded: timestamps and durations (Go
time.Time / time.Duration, int64 nanoseconds) become unbounded integers,
the zero time.Time becomes `Option.none`, the int64 metric counters become
unbounded integers (counter overflow is out of scope), and the float64 hit
rate becomes a rational number computed by the same formula. The pair of a
hash map and a recency list kept in sync by MemoryCache is embedded as a
single association list ordered from most recently used to least recently
used: the map lookup is `List.find?` on the list and the list removal is
`List.eraseP`, which removes exactly the element the map points at. Go
methods that return a nil error unconditionally are embedded as functions
returning only the new state.
-/

namespace Api21Cache

/-- Nanoseconds in one second (Go time.Second). -/
def second : Int := 1000000000

/-- Nanoseconds in one minute (Go time.Minute). -/
def minute : Int := 60 * second

/-- Nanoseconds in one hour (Go time.Hour). -/
def hour : Int := 60 * minute

/-- Embedding of cache.CacheEntry: one cached item with its metadata.
The Go field ExpiresAt is a time.Time whose zero value means "no expiry";
it is embedded as an `Option`, `none` standing for the zero time. -/
structure CacheEntry (T : Type) where
  value : T
  expiresAt : Option Int
  createdAt : Int
  accessAt : Int
  accessCount : Int
deriving DecidableEq

/-- Embedding of CacheEntry.IsExpired: true when ExpiresAt is not the zero
time and time.Now() is strictly after it. The current instant is passed
explicitly. -/
def CacheEntry.isExpired {T : Type} (e : CacheEntry T) (now : Int) : Bool :=
  match e.expiresAt with
  | none => false
  | some exp => decide (exp < now)

/-- Embedding of cache.Metrics. Hits, misses, sets, deletes and evictions
are Go int64 counters, embedded as integers; HitRate is a Go float64,
embedded as the rational the code computes. -/
structure Metrics where
  hits : Int
  misses : Int
  sets : Int
  deletes : Int
  evictions : Int
  size : Int
  hitRate : ℚ
  lastReset : Int
  memoryUsage : Int
deriving DecidableEq

/-- The zero Metrics value with LastReset set, as produced by
`&Metrics{LastReset: time.Now()}`. -/
def Metrics.init (now : Int) : Metrics :=
  { hits := 0, misses := 0, sets := 0, deletes := 0, evictions := 0
    size := 0, hitRate := 0, lastReset := now, memoryUsage := 0 }

/-- Embedding of cache.CacheConfig. -/
structure CacheConfig where
  defaultTTL : Int
  maxSize : Int
  evictionPolicy : String
  cleanupInterval : Int
  enableMetrics : Bool
deriving DecidableEq

/-- Embedding of cache.DefaultConfig: 1 hour default TTL, capacity 1000,
LRU policy, 5 minute cleanup interval, metrics enabled. -/
def DefaultConfig : CacheConfig :=
  { defaultTTL := 1 * hour
    maxSize := 1000
    evictionPolicy := "lru"
    cleanupInterval := 5 * minute
    enableMetrics := true }

/-- Predicate selecting the association-list element holding a given key;
it plays the role of the Go map lookup `mc.data[key]`. -/
def keyIs {T : Type} (key : String) : String × CacheEntry T → Bool :=
  fun p => p.1 == key

/-- Embedding of cache.MemoryCache. The entries list is ordered from most
recently used (front) to least recently used (back); it stands for the
`data` map and the `lruList` together, which the Go code keeps in sync
under one lock. -/
structure MemoryCache (T : Type) where
  entries : List (String × CacheEntry T)
  config : CacheConfig
  metrics : Metrics
deriving DecidableEq

/-- Embedding of cache.NewMemoryCache: a nil config pointer (here `none`)
is replaced by DefaultConfig; the metrics start zeroed with LastReset now.
The background cleanup goroutine it spawns is modelled separately as the
`cleanupExpired` step. -/
def NewMemoryCache (T : Type) (config : Option CacheConfig) (now : Int) :
    MemoryCache T :=
  { entries := []
    config := config.getD DefaultConfig
    metrics := Metrics.init now }

/-- Embedding of the guard `if mc.config.EnableMetrics` wrapped around
every metrics mutation of the Go code: apply the mutation when metrics are
enabled, otherwise leave the state alone. -/
def MemoryCache.withMetrics {T : Type} (mc : MemoryCache T) (f : Metrics → Metrics) :
    MemoryCache T :=
  if mc.config.enableMetrics then { mc with metrics := f mc.metrics } else mc

/-- Embedding of MemoryCache.updateHitRate: when hits plus misses is
positive, HitRate becomes hits divided by that total; otherwise it is left
unchanged. -/
def MemoryCache.updateHitRate {T : Type} (mc : MemoryCache T) : MemoryCache T :=
  let total := mc.metrics.hits + mc.metrics.misses
  if 0 < total then
    { mc with metrics := { mc.metrics with hitRate := (mc.metrics.hits : ℚ) / (total : ℚ) } }
  else mc

/-- Embedding of MemoryCache.Get. On absence: miss counter, `(zero, false)`
(here `none`). On a present but expired entry: the entry is removed and
both the miss and eviction counters increase. On a live hit: the entry is
touched (access time and count) and moved to the front of the recency
list, the hit counter increases and the hit rate is recomputed. -/
def MemoryCache.get {T : Type} (mc : MemoryCache T) (now : Int) (key : String) :
    Option T × MemoryCache T :=
  match mc.entries.find? (keyIs key) with
  | none =>
    (none, mc.withMetrics (fun m => { m with misses := m.misses + 1 }))
  | some (_, e) =>
    if e.isExpired now then
      (none, ({ mc with entries := mc.entries.eraseP (keyIs key) }).withMetrics
        (fun m => { m with misses := m.misses + 1, evictions := m.evictions + 1 }))
    else
      let touched := { e with accessAt := now, accessCount := e.accessCount + 1 }
      let moved := { mc with entries := (key, touched) :: mc.entries.eraseP (keyIs key) }
      (some e.value,
        if moved.config.enableMetrics then
          MemoryCache.updateHitRate
            { moved with metrics := { moved.metrics with hits := moved.metrics.hits + 1 } }
        else moved)

/-- The CacheEntry literal constructed inside MemoryCache.Set, after the
TTL has been resolved: a TTL of exactly zero is replaced by the configured
default, and only a positive resolved TTL yields an expiry instant. -/
def setEntry {T : Type} (config : CacheConfig) (now : Int) (value : T)
    (ttl : Int) : CacheEntry T :=
  let ttl := if ttl = 0 then config.defaultTTL else ttl
  { value := value
    expiresAt := if 0 < ttl then some (now + ttl) else none
    createdAt := now
    accessAt := now
    accessCount := 1 }

/-- Embedding of MemoryCache.evictLRU: remove the back (least recently
used) element of the recency list, counting an eviction when metrics are
enabled; a no-op on an empty list. -/
def MemoryCache.evictLRU {T : Type} (mc : MemoryCache T) : MemoryCache T :=
  if mc.entries.isEmpty then mc
  else
    ({ mc with entries := mc.entries.dropLast }).withMetrics
      (fun m => { m with evictions := m.evictions + 1 })

/-- Embedding of MemoryCache.Set. An existing key has its entry replaced
and is moved to the front; a new key is pushed at the front and, when the
list has grown past MaxSize (with MaxSize positive), the LRU entry is
evicted. The set counter increases when metrics are enabled. The Go method
returns a nil error unconditionally. -/
def MemoryCache.set {T : Type} (mc : MemoryCache T) (now : Int) (key : String)
    (value : T) (ttl : Int) : MemoryCache T :=
  let entry := setEntry mc.config now value ttl
  let mc :=
    if (mc.entries.find? (keyIs key)).isSome then
      { mc with entries := (key, entry) :: mc.entries.eraseP (keyIs key) }
    else
      let grown := { mc with entries := (key, entry) :: mc.entries }
      if 0 < grown.config.maxSize ∧ grown.config.maxSize < (grown.entries.length : Int) then
        grown.evictLRU
      else grown
  mc.withMetrics (fun m => { m with sets := m.sets + 1 })

/-- Embedding of MemoryCache.Delete: remove the key when present, counting
a delete when metrics are enabled; a silent no-op when absent. The Go
method returns a nil error unconditionally. -/
def MemoryCache.delete {T : Type} (mc : MemoryCache T) (key : String) :
    MemoryCache T :=
  if (mc.entries.find? (keyIs key)).isSome then
    ({ mc with entries := mc.entries.eraseP (keyIs key) }).withMetrics
      (fun m => { m with deletes := m.deletes + 1 })
  else mc

/-- Embedding of MemoryCache.Clear: drop every entry, and reset the
metrics (with a fresh LastReset) when metrics are enabled. -/
def MemoryCache.clear {T : Type} (mc : MemoryCache T) (now : Int) : MemoryCache T :=
  ({ mc with entries := [] }).withMetrics (fun _ => Metrics.init now)

/-- Embedding of MemoryCache.Size: the number of entries. -/
def MemoryCache.size {T : Type} (mc : MemoryCache T) : Nat :=
  mc.entries.length

/-- Embedding of MemoryCache.Has: the key is present and its entry is not
expired; unlike Get this removes nothing and touches no metrics. -/
def MemoryCache.has {T : Type} (mc : MemoryCache T) (now : Int) (key : String) :
    Bool :=
  match mc.entries.find? (keyIs key) with
  | none => false
  | some (_, e) => !e.isExpired now

/-- Embedding of MemoryCache.SetDefaultTTL. -/
def MemoryCache.setDefaultTTL {T : Type} (mc : MemoryCache T) (ttl : Int) :
    MemoryCache T :=
  { mc with config := { mc.config with defaultTTL := ttl } }

/-- Embedding of MemoryCache.estimateMemoryUsage. The Go code takes
unsafe.Sizeof of a sample value; that platform constant is passed in as
`sizeofT`. -/
def MemoryCache.estimateMemoryUsage {T : Type} (mc : MemoryCache T)
    (sizeofT : Int) : Int :=
  if mc.entries.length = 0 then 0
  else
    let mapOverhead := (mc.entries.length : Int) * 64
    let listOverhead := (mc.entries.length : Int) * 48
    let dataSize := (mc.entries.length : Int) * sizeofT
    mapOverhead + listOverhead + dataSize

/-- Embedding of MemoryCache.GetMetrics: when metrics are enabled the
stored record is refreshed (current size, memory estimate, recomputed hit
rate) before a copy is returned; the refreshed state is returned alongside
the copy since the Go method mutates the shared record in place. -/
def MemoryCache.getMetrics {T : Type} (mc : MemoryCache T) (sizeofT : Int) :
    Metrics × MemoryCache T :=
  let mc :=
    if mc.config.enableMetrics then
      MemoryCache.updateHitRate
        { mc with metrics := { mc.metrics with
            size := (mc.entries.length : Int)
            memoryUsage := mc.estimateMemoryUsage sizeofT } }
    else mc
  (mc.metrics, mc)

/-- Embedding of MemoryCache.cleanupExpired, the body of the background
sweep: remove every entry whose expiry is set and strictly in the past,
counting one eviction per removed entry when metrics are enabled. -/
def MemoryCache.cleanupExpired {T : Type} (mc : MemoryCache T) (now : Int) :
    MemoryCache T :=
  let removed := mc.entries.countP (fun p => p.2.isExpired now)
  ({ mc with entries := mc.entries.filter (fun p => !p.2.isExpired now) }).withMetrics
    (fun m => { m with evictions := m.evictions + (removed : Int) })

/-! ## Registry (cache.Manager), no-op cache and environment configuration -/

/-- Association-map write, the embedding of a Go map assignment
`m[k] = v`: any previous binding of the key is dropped and the new one
added. -/
def mapPut {A : Type} (l : List (String × A)) (k : String) (v : A) :
    List (String × A) :=
  (k, v) :: l.eraseP (fun p => p.1 == k)

/-- Embedding of cache.NoOpCache, the disabled cache handed out after the
registry has closed. The Go struct has no fields. -/
structure NoOpCache (T : Type) where
deriving DecidableEq

/-- Embedding of NewNoOpCache. -/
def NewNoOpCache (T : Type) : NoOpCache T := {}

/-- NoOpCache.Get always reports absence. -/
def NoOpCache.get {T : Type} (_ : NoOpCache T) (_ : String) : Option T := none

/-- NoOpCache.Set does nothing and returns a nil error. -/
def NoOpCache.set {T : Type} (n : NoOpCache T) (_ : String) (_ : T)
    (_ : Int) : NoOpCache T := n

/-- NoOpCache.Delete does nothing and returns a nil error. -/
def NoOpCache.delete {T : Type} (n : NoOpCache T) (_ : String) : NoOpCache T := n

/-- NoOpCache.Clear does nothing and returns a nil error. -/
def NoOpCache.clear {T : Type} (n : NoOpCache T) : NoOpCache T := n

/-- NoOpCache.Size is always zero. -/
def NoOpCache.size {T : Type} (_ : NoOpCache T) : Nat := 0

/-- NoOpCache.Has is always false. -/
def NoOpCache.has {T : Type} (_ : NoOpCache T) (_ : String) : Bool := false

/-- NoOpCache.GetMetrics returns a fresh zero record. -/
def NoOpCache.getMetrics {T : Type} (_ : NoOpCache T) (now : Int) : Metrics :=
  Metrics.init now

/-- Embedding of cache.Manager for one value type: the named cache
instances, the per-name configurations and the closed flag. The Go maps
become association lists written through `mapPut`. -/
structure Manager (T : Type) where
  caches : List (String × MemoryCache T)
  configs : List (String × CacheConfig)
  closed : Bool
deriving DecidableEq

/-- Embedding of cache.NewManager. -/
def NewManager (T : Type) : Manager T :=
  { caches := [], configs := [], closed := false }

/-- Decimal digits read as a natural number; helper for the stdlib
parsing models below. -/
def digitsToNat (l : List Char) : Nat :=
  l.foldl (fun acc c => 10 * acc + (c.toNat - 48)) 0

/-- Model of the Go standard library strconv.Atoi (not repository code):
an optional sign followed by at least one decimal digit; anything else is
an error, embedded as `none`. The int64 range check is out of scope. -/
def atoi (s : String) : Option Int :=
  match s.data with
  | [] => none
  | l =>
    let (sign, digits) :=
      match l with
      | '-' :: rest => ((-1 : Int), rest)
      | '+' :: rest => ((1 : Int), rest)
      | _ => ((1 : Int), l)
    if digits.isEmpty then none
    else if digits.all Char.isDigit then some (sign * (digitsToNat digits : Int))
    else none

/-- Model of the Go standard library time.ParseDuration (not repository
code), restricted to the literal "0" and to a single nonnegative integer
followed by one unit among ns, us, ms, s, m, h; richer forms of the Go
grammar are out of scope and embedded as parse failures. -/
def parseGoDuration (s : String) : Option Int :=
  if s = "0" then some 0
  else
    let digits := s.data.takeWhile Char.isDigit
    let unit := s.data.dropWhile Char.isDigit
    if digits.isEmpty then none
    else
      let n : Int := (digitsToNat digits : Int)
      if unit = "ns".data then some n
      else if unit = "us".data then some (n * 1000)
      else if unit = "ms".data then some (n * 1000000)
      else if unit = "s".data then some (n * second)
      else if unit = "m".data then some (n * minute)
      else if unit = "h".data then some (n * hour)
      else none

/-- One duration block of ConfigFromEnv: an unset (empty) variable keeps
the current value; otherwise time.ParseDuration is tried first and a bare
integer is read as a second count, an unparseable value keeping the
current one. Used for both the TTL and the cleanup-interval knobs. -/
def applyDurationSetting (s : String) (current : Int) : Int :=
  if s ≠ "" then
    match parseGoDuration s with
    | some d => d
    | none =>
      match atoi s with
      | some seconds => seconds * second
      | none => current
  else current

/-- One max-size block of ConfigFromEnv: a set variable overrides the
current value only when it parses as a positive integer. -/
def applyMaxSizeSetting (s : String) (current : Int) : Int :=
  if s ≠ "" then
    match atoi s with
    | some m => if 0 < m then m else current
    | none => current
  else current

/-- The enable-metrics block of ConfigFromEnv: any set value overrides,
and only the strings true and 1 mean enabled. -/
def applyBoolSetting (s : String) (current : Bool) : Bool :=
  if s ≠ "" then (s == "true" || s == "1") else current

/-- The eviction-policy block of ConfigFromEnv: any set value overrides. -/
def applyStringSetting (s current : String) : String :=
  if s ≠ "" then s else current

/-- Embedding of cache.ConfigFromEnv. The process environment is passed as
a function from variable name to value, the empty string standing for an
unset variable as with os.Getenv. Starting from the hardcoded defaults,
the global keys may override every knob, in the order of the Go code; the
name-prefixed keys the code then reads are only the TTL and the maximum
size. -/
def ConfigFromEnv (env : String → String) (cacheName : String) : CacheConfig :=
  let config := DefaultConfig
  let config := { config with
    defaultTTL := applyDurationSetting (env "CACHE_DEFAULT_TTL") config.defaultTTL }
  let config := { config with
    maxSize := applyMaxSizeSetting (env "CACHE_MAX_SIZE") config.maxSize }
  let config := { config with
    cleanupInterval := applyDurationSetting (env "CACHE_CLEANUP_INTERVAL") config.cleanupInterval }
  let config := { config with
    enableMetrics := applyBoolSetting (env "CACHE_ENABLE_METRICS") config.enableMetrics }
  let config := { config with
    evictionPolicy := applyStringSetting (env "CACHE_EVICTION_POLICY") config.evictionPolicy }
  let pfx := "CACHE_" ++ cacheName ++ "_"
  let config := { config with
    defaultTTL := applyDurationSetting (env (pfx ++ "TTL")) config.defaultTTL }
  let config := { config with
    maxSize := applyMaxSizeSetting (env (pfx ++ "MAX_SIZE")) config.maxSize }
  config

/-- Embedding of Manager.getConfigForCache: an explicitly recorded
configuration wins; otherwise one is built from the environment and
recorded. -/
def Manager.getConfigForCache {T : Type} (m : Manager T) (env : String → String)
    (name : String) : CacheConfig × Manager T :=
  match m.configs.find? (fun p => p.1 == name) with
  | some p => (p.2, m)
  | none =>
    let config := ConfigFromEnv env name
    (config, { m with configs := mapPut m.configs name config })

/-- Embedding of Manager.SetCacheConfig. -/
def Manager.setCacheConfig {T : Type} (m : Manager T) (name : String)
    (config : CacheConfig) : Manager T :=
  { m with configs := mapPut m.configs name config }

/-- The value returned by cache.GetOrCreateCache: either a live memory
cache or the disabled no-op cache handed out after close. -/
inductive CacheRef (T : Type) where
  | mem (c : MemoryCache T)
  | noop (c : NoOpCache T)
deriving DecidableEq

/-- Embedding of cache.GetOrCreateCache. On a closed manager a fresh no-op
cache is returned and no state is created. Otherwise an existing instance
under the name is returned (the dynamic type assertion of the Go code
always succeeds in this single-type embedding); a missing one is created
from the resolved configuration and recorded. -/
def GetOrCreateCache {T : Type} (m : Manager T) (env : String → String)
    (now : Int) (name : String) : CacheRef T × Manager T :=
  if m.closed then (CacheRef.noop (NewNoOpCache T), m)
  else
    match m.caches.find? (fun p => p.1 == name) with
    | some p => (CacheRef.mem p.2, m)
    | none =>
      let (config, m) := m.getConfigForCache env name
      let c := NewMemoryCache T (some config) now
      (CacheRef.mem c,
        { m with caches := mapPut m.caches name c
                 configs := mapPut m.configs name config })

/-- Embedding of Manager.Close: a second call returns at once; the first
call stops every cache, discards all registry state and marks the manager
permanently closed. Stopping a MemoryCache only terminates its cleanup
goroutine, which has no embedded state. -/
def Manager.close {T : Type} (m : Manager T) : Manager T :=
  if m.closed then m
  else { caches := [], configs := [], closed := true }

/-- Embedding of cache.ClipboardCacheKey. -/
def ClipboardCacheKey (operation identifier : String) : String :=
  (("clipboard:" ++ operation) ++ ":") ++ identifier

/-! ## Clipboard service wrapper (models.CachedClipboardService) -/

deriving instance DecidableEq for Except

/-- Embedding of the models.Clipboard entity, restricted to the fields the
caching wrapper reads: the primary identifier, the title (the alternate
key) and the content. -/
structure Clipboard where
  id : Nat
  title : String
  content : String
deriving DecidableEq

/-- The dynamic values the clipboard cache stores in its `interface` slots:
a clipboard pointer, a bare content string, or a clipboard list. -/
inductive CachedValue where
  | clip (c : Clipboard)
  | str (s : String)
  | clipList (l : List Clipboard)
deriving DecidableEq

/-- Embedding of models.DefaultClipboardTTL (30 minutes). -/
def DefaultClipboardTTL : Int := 30 * minute

/-- Embedding of models.ClipboardListTTL (5 minutes). -/
def ClipboardListTTL : Int := 5 * minute

/-- The cache a CachedClipboardService wraps. -/
abbrev ClipCache := MemoryCache CachedValue

/-- Embedding of CachedClipboardService.GetClipboardByID. The durable
store lookup result is passed in as `dbGet`. A cached value of the wrong
dynamic type falls through to the durable store, as the failed Go type
assertion does. On a miss the durable error is returned unchanged and
nothing is stored; on durable success the value is cached under the id key
with the default clipboard TTL. -/
def GetClipboardByID (st : ClipCache) (dbGet : Except String Clipboard)
    (id : Nat) (now : Int) : Except String Clipboard × ClipCache :=
  let cacheKey := ClipboardCacheKey "id" (toString id)
  let (cached, st) := st.get now cacheKey
  match cached with
  | some (CachedValue.clip c) => (Except.ok c, st)
  | _ =>
    match dbGet with
    | Except.error e => (Except.error e, st)
    | Except.ok c =>
      (Except.ok c, st.set now cacheKey (CachedValue.clip c) DefaultClipboardTTL)

/-- Embedding of CachedClipboardService.GetClipboardByTitle; same shape as
the lookup by id, keyed by title. -/
def GetClipboardByTitle (st : ClipCache) (dbGet : Except String Clipboard)
    (title : String) (now : Int) : Except String Clipboard × ClipCache :=
  let cacheKey := ClipboardCacheKey "title" title
  let (cached, st) := st.get now cacheKey
  match cached with
  | some (CachedValue.clip c) => (Except.ok c, st)
  | _ =>
    match dbGet with
    | Except.error e => (Except.error e, st)
    | Except.ok c =>
      (Except.ok c, st.set now cacheKey (CachedValue.clip c) DefaultClipboardTTL)

/-- Embedding of CachedClipboardService.GetClipboardContentByTitle: the
content-only variant for the raw endpoint, caching just the content
string under the content key. -/
def GetClipboardContentByTitle (st : ClipCache) (dbGet : Except String Clipboard)
    (title : String) (now : Int) : Except String String × ClipCache :=
  let cacheKey := ClipboardCacheKey "content" title
  let (cached, st) := st.get now cacheKey
  match cached with
  | some (CachedValue.str content) => (Except.ok content, st)
  | _ =>
    match dbGet with
    | Except.error e => (Except.error e, st)
    | Except.ok c =>
      (Except.ok c.content, st.set now cacheKey (CachedValue.str c.content) DefaultClipboardTTL)

/-- Embedding of CachedClipboardService.UpdateClipboard. The prior durable
row is fetched first (its error is discarded, leaving a nil pointer, hence
the `Option`); if the durable update fails the error is returned with the
cache untouched. On success the list key is invalidated, the old title and
content keys are invalidated when the title changed, the new title and
content keys are written through with fresh data, and the id key is
invalidated. -/
def UpdateClipboard (st : ClipCache) (dbGetOld : Except String Clipboard)
    (dbUpdate : Except String Unit) (clipboard : Clipboard) (now : Int) :
    Except String Unit × ClipCache :=
  let oldClipboard : Option Clipboard := dbGetOld.toOption
  match dbUpdate with
  | Except.error e => (Except.error e, st)
  | Except.ok _ =>
    let st := st.delete (ClipboardCacheKey "list" "all")
    let st :=
      match oldClipboard with
      | some old =>
        if old.title ≠ clipboard.title then
          (st.delete (ClipboardCacheKey "title" old.title)).delete
            (ClipboardCacheKey "content" old.title)
        else st
      | none => st
    let st :=
      if clipboard.title ≠ "" then
        ((st.set now (ClipboardCacheKey "title" clipboard.title)
            (CachedValue.clip clipboard) DefaultClipboardTTL).set now
          (ClipboardCacheKey "content" clipboard.title)
          (CachedValue.str clipboard.content) DefaultClipboardTTL)
      else st
    let st := st.delete (ClipboardCacheKey "id" (toString clipboard.id))
    (Except.ok (), st)

/-- Embedding of CachedClipboardService.DeleteClipboard: if the durable
delete fails the error is returned with the cache untouched; on success
the list key, the title and content keys (for a nonempty title) and the
id key are invalidated. -/
def DeleteClipboard (st : ClipCache) (dbDelete : Except String Unit)
    (clipboard : Clipboard) : Except String Unit × ClipCache :=
  match dbDelete with
  | Except.error e => (Except.error e, st)
  | Except.ok _ =>
    let st := st.delete (ClipboardCacheKey "list" "all")
    let st :=
      if clipboard.title ≠ "" then
        (st.delete (ClipboardCacheKey "title" clipboard.title)).delete
          (ClipboardCacheKey "content" clipboard.title)
      else st
    let st := st.delete (ClipboardCacheKey "id" (toString clipboard.id))
    (Except.ok (), st)

/-! ## Operation sequences and invariants used to state the claims -/

/-- One Set call, for stating properties of arbitrary Set sequences. -/
structure SetOp (T : Type) where
  now : Int
  key : String
  value : T
  ttl : Int

/-- Run a sequence of Set calls left to right. -/
def applySets {T : Type} (mc : MemoryCache T) : List (SetOp T) → MemoryCache T
  | [] => mc
  | op :: ops => applySets (mc.set op.now op.key op.value op.ttl) ops

/-- The number of Set calls in the sequence that insert a new key at a
moment when one more entry would exceed the configured capacity; the
specification says the evictions counter counts exactly these. -/
def countOverCapacity {T : Type} : MemoryCache T → List (SetOp T) → Int
  | _, [] => 0
  | mc, op :: ops =>
    (if (mc.entries.find? (keyIs op.key)).isNone ∧
        mc.config.maxSize < (mc.entries.length : Int) + 1 then 1 else 0)
    + countOverCapacity (mc.set op.now op.key op.value op.ttl) ops

/-- One public cache operation, for stating properties of arbitrary
operation sequences. -/
inductive CacheOp (T : Type) where
  | doGet (now : Int) (key : String)
  | doSet (now : Int) (key : String) (value : T) (ttl : Int)
  | doDelete (key : String)
  | doClear (now : Int)
  | doSetDefaultTTL (ttl : Int)
  | doGetMetrics (sizeofT : Int)
  | doCleanup (now : Int)

/-- Apply one public operation, keeping only the state. -/
def applyOp {T : Type} (mc : MemoryCache T) : CacheOp T → MemoryCache T
  | .doGet now key => (mc.get now key).2
  | .doSet now key v ttl => mc.set now key v ttl
  | .doDelete key => mc.delete key
  | .doClear now => mc.clear now
  | .doSetDefaultTTL ttl => mc.setDefaultTTL ttl
  | .doGetMetrics s => (mc.getMetrics s).2
  | .doCleanup now => mc.cleanupExpired now

/-- Run a sequence of public operations left to right. -/
def runOps {T : Type} (mc : MemoryCache T) : List (CacheOp T) → MemoryCache T
  | [] => mc
  | op :: ops => runOps (applyOp mc op) ops

/-- The hit-rate bookkeeping invariant: the hit and miss counters are
nonnegative, a zero total means the stored rate is still zero, and with
metrics disabled nothing was ever counted. -/
def hitRateInv {T : Type} (mc : MemoryCache T) : Prop :=
  0 ≤ mc.metrics.hits ∧ 0 ≤ mc.metrics.misses
  ∧ (mc.metrics.hits + mc.metrics.misses = 0 → mc.metrics.hitRate = 0)
  ∧ (mc.config.enableMetrics = false →
      mc.metrics.hits = 0 ∧ mc.metrics.misses = 0 ∧ mc.metrics.hitRate = 0)

/-! ## Concrete scenarios used by the witnesses and counterexamples -/

/-- Capacity-3 configuration with no default expiry, for the LRU
scenario. -/
def lruScenarioConfig : CacheConfig :=
  { defaultTTL := 0, maxSize := 3, evictionPolicy := "lru",
    cleanupInterval := 5 * minute, enableMetrics := true }

/-- The LRU scenario after inserting A, B and C. -/
def lruScenario3 : MemoryCache String :=
  (((NewMemoryCache String (some lruScenarioConfig) 0).set 1 "A" "a" 0).set
    2 "B" "b" 0).set 3 "C" "c" 0

/-- The LRU scenario after Get A has refreshed the recency of A. -/
def lruScenarioAfterGet : MemoryCache String := (lruScenario3.get 4 "A").2

/-- The LRU scenario after the overflowing insert of D. -/
def lruScenarioFinal : MemoryCache String := lruScenarioAfterGet.set 5 "D" "d" 0

/-- A short Set sequence on a capacity-2 cache: the third insert overflows. -/
def capacityScenarioOps : List (SetOp String) :=
  [⟨1, "A", "a", 0⟩, ⟨2, "B", "b", 0⟩, ⟨3, "C", "c", 0⟩, ⟨4, "B", "b2", 0⟩]

/-- Capacity-2 configuration for the capacity scenario. -/
def capacityScenarioConfig : CacheConfig :=
  { defaultTTL := 0, maxSize := 2, evictionPolicy := "lru",
    cleanupInterval := 5 * minute, enableMetrics := true }

/-- The clipboard row before the title change. -/
def clipOld : Clipboard := { id := 1, title := "A", content := "x" }

/-- The clipboard row after the title change. -/
def clipNew : Clipboard := { id := 1, title := "B", content := "y" }

/-- Clipboard cache populated by a read by title A and a read by id, both
served by the durable store. -/
def clipPopulated : ClipCache :=
  (GetClipboardByID
    ((GetClipboardByTitle (NewMemoryCache CachedValue (some DefaultConfig) 0)
        (Except.ok clipOld) "A" 1).2)
    (Except.ok clipOld) 1 2).2

/-- Clipboard cache right after the update that renamed A to B. -/
def clipUpdated : ClipCache :=
  (UpdateClipboard clipPopulated (Except.ok clipOld) (Except.ok ()) clipNew 3).2

/-- The cache after the invalidation half of UpdateClipboard when the
title changed: the list key and the old title and content keys deleted. -/
def updateStep3 (st : ClipCache) (oldC : Clipboard) : ClipCache :=
  ((st.delete (ClipboardCacheKey "list" "all")).delete
    (ClipboardCacheKey "title" oldC.title)).delete
    (ClipboardCacheKey "content" oldC.title)

/-- The cache after UpdateClipboard has additionally written the new
title and content keys through. -/
def updateStep5 (st : ClipCache) (oldC newC : Clipboard) (now : Int) : ClipCache :=
  ((updateStep3 st oldC).set now (ClipboardCacheKey "title" newC.title)
    (CachedValue.clip newC) DefaultClipboardTTL).set now
    (ClipboardCacheKey "content" newC.title) (CachedValue.str newC.content)
    DefaultClipboardTTL

/-- The full cache state UpdateClipboard leaves behind on a successful
title-changing update: the write-through state with the id key deleted. -/
def updateStep6 (st : ClipCache) (oldC newC : Clipboard) (now : Int) : ClipCache :=
  (updateStep5 st oldC newC now).delete (ClipboardCacheKey "id" (toString newC.id))

/-- Environment for the configuration counterexample: a global cleanup
interval of 7s, a name-prefixed cleanup interval of 1s and a name-prefixed
metrics switch that the code never reads. -/
def envPrefixed : String → String := fun k =>
  if k = "CACHE_CLEANUP_INTERVAL" then "7s"
  else if k = "CACHE_MYCACHE_CLEANUP_INTERVAL" then "1s"
  else if k = "CACHE_MYCACHE_ENABLE_METRICS" then "false"
  else ""

/-- Environment exercising the honoured precedence: global and
name-prefixed TTL and max size are all set. -/
def envLayered : String → String := fun k =>
  if k = "CACHE_DEFAULT_TTL" then "2h"
  else if k = "CACHE_MYCACHE_TTL" then "90s"
  else if k = "CACHE_MAX_SIZE" then "50"
  else if k = "CACHE_MYCACHE_MAX_SIZE" then "7"
  else ""

/-- A manager holding one explicitly recorded configuration, for the
resolution witness. -/
def managerWithExplicit : Manager Nat :=
  (NewManager Nat).setCacheConfig "clipboard" lruScenarioConfig

/-! ## Association-list and key lemmas -/

section KeyLemmas

variable {T : Type}

theorem keyIs_iff {k : String} {p : String × CacheEntry T} :
    keyIs k p = true ↔ p.1 = k := by
  simp [keyIs]

theorem keyIs_pair {k a : String} {e : CacheEntry T} :
    keyIs k ((a, e) : String × CacheEntry T) = (a == k) := rfl

/-- Erasing one key leaves lookups of any other key unchanged. -/
theorem find?_eraseP_of_ne {l : List (String × CacheEntry T)} {k k' : String}
    (h : k ≠ k') :
    (l.eraseP (keyIs k)).find? (keyIs k') = l.find? (keyIs k') := by
  induction l with
  | nil => rfl
  | cons a l ih =>
    by_cases ha : keyIs k a = true
    · rw [List.eraseP_cons_of_pos ha]
      have ha' : keyIs k' a = false := by
        rw [keyIs_iff] at ha
        simp only [keyIs, beq_eq_false_iff_ne, ne_eq, ha]
        exact h
      rw [List.find?_cons, ha']
    · rw [List.eraseP_cons_of_neg ha]
      rw [List.find?_cons, List.find?_cons]
      cases hk : keyIs k' a with
      | true => rfl
      | false => exact ih

/-- A key is absent exactly when no entry of the list carries it. -/
theorem find?_keyIs_eq_none_iff {l : List (String × CacheEntry T)} {k : String} :
    l.find? (keyIs k) = none ↔ k ∉ l.map Prod.fst := by
  rw [List.find?_eq_none]
  constructor
  · intro h hmem
    rcases List.mem_map.mp hmem with ⟨p, hp, hfst⟩
    exact h p hp (keyIs_iff.mpr hfst)
  · intro h p hp hkey
    exact h (List.mem_map.mpr ⟨p, hp, keyIs_iff.mp hkey⟩)

/-- With duplicate-free keys, erasing a key removes it entirely. -/
theorem find?_eraseP_self {l : List (String × CacheEntry T)} {k : String}
    (h : (l.map Prod.fst).Nodup) :
    (l.eraseP (keyIs k)).find? (keyIs k) = none := by
  induction l with
  | nil => rfl
  | cons a l ih =>
    rw [List.map_cons, List.nodup_cons] at h
    by_cases ha : keyIs k a = true
    · rw [List.eraseP_cons_of_pos ha]
      rw [find?_keyIs_eq_none_iff]
      rw [keyIs_iff] at ha
      rw [← ha]
      exact h.1
    · rw [List.eraseP_cons_of_neg ha]
      rw [List.find?_cons]
      have ha' : keyIs k a = false := by
        cases hk : keyIs k a with
        | true => exact absurd hk ha
        | false => rfl
      rw [ha']
      exact ih h.2

/-- The keys remaining after an erase are a sublist of the original keys. -/
theorem keys_eraseP_sublist (l : List (String × CacheEntry T)) (p) :
    List.Sublist ((l.eraseP p).map Prod.fst) (l.map Prod.fst) :=
  (List.eraseP_sublist l).map Prod.fst

theorem nodup_keys_eraseP {l : List (String × CacheEntry T)} {p}
    (h : (l.map Prod.fst).Nodup) : ((l.eraseP p).map Prod.fst).Nodup :=
  (keys_eraseP_sublist l p).nodup h

end KeyLemmas

/-! ## MemoryCache operation lemmas -/

section OpLemmas

variable {T : Type}

theorem entries_withMetrics (mc : MemoryCache T) (f : Metrics → Metrics) :
    (mc.withMetrics f).entries = mc.entries := by
  unfold MemoryCache.withMetrics
  split <;> rfl

theorem config_withMetrics (mc : MemoryCache T) (f : Metrics → Metrics) :
    (mc.withMetrics f).config = mc.config := by
  unfold MemoryCache.withMetrics
  split <;> rfl

theorem metrics_withMetrics_of_enabled (mc : MemoryCache T) (f : Metrics → Metrics)
    (hm : mc.config.enableMetrics = true) :
    (mc.withMetrics f).metrics = f mc.metrics := by
  unfold MemoryCache.withMetrics
  rw [if_pos hm]

theorem metrics_withMetrics_of_disabled (mc : MemoryCache T) (f : Metrics → Metrics)
    (hm : mc.config.enableMetrics = false) :
    (mc.withMetrics f).metrics = mc.metrics := by
  unfold MemoryCache.withMetrics
  rw [if_neg (by simp [hm])]

theorem entries_evictLRU (mc : MemoryCache T) :
    mc.evictLRU.entries = mc.entries.dropLast := by
  unfold MemoryCache.evictLRU
  split
  · rename_i h
    rw [List.isEmpty_iff] at h
    rw [h]
    rfl
  · rw [entries_withMetrics]

theorem config_evictLRU (mc : MemoryCache T) : mc.evictLRU.config = mc.config := by
  unfold MemoryCache.evictLRU
  split
  · rfl
  · rw [config_withMetrics]

theorem metrics_evictLRU_of_enabled (mc : MemoryCache T)
    (hne : mc.entries ≠ []) (hm : mc.config.enableMetrics = true) :
    mc.evictLRU.metrics =
      { mc.metrics with evictions := mc.metrics.evictions + 1 } := by
  unfold MemoryCache.evictLRU
  rw [if_neg (by simpa [List.isEmpty_iff] using hne)]
  rw [metrics_withMetrics_of_enabled ({ mc with entries := mc.entries.dropLast }) _ hm]

theorem metrics_evictLRU_of_disabled (mc : MemoryCache T)
    (hm : mc.config.enableMetrics = false) :
    mc.evictLRU.metrics = mc.metrics := by
  unfold MemoryCache.evictLRU
  split
  · rfl
  · rw [metrics_withMetrics_of_disabled ({ mc with entries := mc.entries.dropLast }) _ hm]

/-- Delete always leaves exactly the erase of its key, a no-op included. -/
theorem entries_delete (mc : MemoryCache T) (k : String) :
    (mc.delete k).entries = mc.entries.eraseP (keyIs k) := by
  unfold MemoryCache.delete
  split
  · rw [entries_withMetrics]
  · rename_i h
    rw [Option.not_isSome_iff_eq_none] at h
    rw [List.eraseP_of_forall_not (List.find?_eq_none.mp h)]

theorem config_delete (mc : MemoryCache T) (k : String) :
    (mc.delete k).config = mc.config := by
  unfold MemoryCache.delete
  split
  · rw [config_withMetrics]
  · rfl

theorem find?_delete_of_ne (mc : MemoryCache T) {k k' : String} (h : k ≠ k') :
    (mc.delete k).entries.find? (keyIs k') = mc.entries.find? (keyIs k') := by
  rw [entries_delete, find?_eraseP_of_ne h]

theorem find?_delete_self (mc : MemoryCache T) (k : String)
    (h : (mc.entries.map Prod.fst).Nodup) :
    (mc.delete k).entries.find? (keyIs k) = none := by
  rw [entries_delete, find?_eraseP_self h]

theorem nodup_keys_delete (mc : MemoryCache T) (k : String)
    (h : (mc.entries.map Prod.fst).Nodup) :
    ((mc.delete k).entries.map Prod.fst).Nodup := by
  rw [entries_delete]; exact nodup_keys_eraseP h

theorem length_delete_le (mc : MemoryCache T) (k : String) :
    (mc.delete k).entries.length ≤ mc.entries.length := by
  rw [entries_delete]
  exact (List.eraseP_sublist mc.entries).length_le

theorem config_set (mc : MemoryCache T) (now k v ttl) :
    (mc.set now k v ttl).config = mc.config := by
  unfold MemoryCache.set
  dsimp only
  rw [config_withMetrics]
  split
  · rfl
  · split
    · exact config_evictLRU _
    · rfl

/-- When the cache has strict headroom, Set never reaches the eviction
branch: the new entry is pushed at the front and any previous binding of
the key is erased. -/
theorem entries_set_of_room (mc : MemoryCache T) (now k v ttl)
    (hroom : (mc.entries.length : Int) < mc.config.maxSize) :
    (mc.set now k v ttl).entries =
      (k, setEntry mc.config now v ttl) :: mc.entries.eraseP (keyIs k) := by
  unfold MemoryCache.set
  dsimp only
  rw [entries_withMetrics]
  split
  · rfl
  · rename_i hfound
    have hnover : ¬(0 < mc.config.maxSize ∧
        mc.config.maxSize <
          ((((k, setEntry mc.config now v ttl) :: mc.entries).length : Nat) : Int)) := by
      intro hc
      have h2 := hc.2
      rw [List.length_cons] at h2
      push_cast at h2
      omega
    rw [if_neg hnover]
    rw [Option.not_isSome_iff_eq_none] at hfound
    have herase : mc.entries.eraseP (keyIs k) = mc.entries :=
      List.eraseP_of_forall_not (List.find?_eq_none.mp hfound)
    rw [herase]

/-- Whatever branch Set takes, the key just written is found at the front
with exactly the entry Set builds. -/
theorem find?_set_self (mc : MemoryCache T) (now k v ttl) :
    (mc.set now k v ttl).entries.find? (keyIs k) =
      some (k, setEntry mc.config now v ttl) := by
  have hhead : ∀ l : List (String × CacheEntry T),
      ((k, setEntry mc.config now v ttl) :: l).find? (keyIs k) =
        some (k, setEntry mc.config now v ttl) := by
    intro l
    rw [List.find?_cons]
    simp [keyIs]
  unfold MemoryCache.set
  dsimp only
  rw [entries_withMetrics]
  split
  · exact hhead _
  · split
    · rename_i hfound hover
      have hne : mc.entries ≠ [] := by
        intro hnil
        have h2 := hover.2
        rw [hnil] at h2
        simp at h2
        have h1 := hover.1
        omega
      rw [entries_evictLRU]
      dsimp only
      obtain ⟨b, bs, he⟩ := List.exists_cons_of_ne_nil hne
      rw [he, List.dropLast_cons₂]
      exact hhead _
    · exact hhead _

theorem find?_set_of_ne (mc : MemoryCache T) (now k v ttl) {k' : String}
    (hroom : (mc.entries.length : Int) < mc.config.maxSize) (h : k ≠ k') :
    (mc.set now k v ttl).entries.find? (keyIs k') = mc.entries.find? (keyIs k') := by
  rw [entries_set_of_room mc now k v ttl hroom, List.find?_cons]
  have hk : keyIs k' ((k, setEntry mc.config now v ttl) : String × CacheEntry T) = false := by
    simp only [keyIs, beq_eq_false_iff_ne, ne_eq]
    exact h
  rw [hk]
  exact find?_eraseP_of_ne h

theorem nodup_keys_set_of_room (mc : MemoryCache T) (now k v ttl)
    (hroom : (mc.entries.length : Int) < mc.config.maxSize)
    (h : (mc.entries.map Prod.fst).Nodup) :
    ((mc.set now k v ttl).entries.map Prod.fst).Nodup := by
  rw [entries_set_of_room mc now k v ttl hroom, List.map_cons, List.nodup_cons]
  constructor
  · rw [← find?_keyIs_eq_none_iff]
    exact find?_eraseP_self h
  · exact nodup_keys_eraseP h

theorem length_set_of_room_le (mc : MemoryCache T) (now k v ttl)
    (hroom : (mc.entries.length : Int) < mc.config.maxSize) :
    (mc.set now k v ttl).entries.length ≤ mc.entries.length + 1 := by
  rw [entries_set_of_room mc now k v ttl hroom, List.length_cons]
  have := (List.eraseP_sublist (p := keyIs (T := T) k) mc.entries).length_le
  omega

/-- The first component of Get, written as a pure lookup: absence and
lazily discovered expiry yield `none`, a live entry yields its value. -/
theorem get_fst (mc : MemoryCache T) (now : Int) (k : String) :
    (mc.get now k).1 =
      match mc.entries.find? (keyIs k) with
      | none => none
      | some (_, e) => if e.isExpired now then none else some e.value := by
  unfold MemoryCache.get
  cases h : mc.entries.find? (keyIs k) with
  | none => rfl
  | some p =>
    obtain ⟨a, e⟩ := p
    dsimp only
    split
    · rfl
    · split <;> rfl

/-- The entries of the state Get returns on an absent key are unchanged. -/
theorem entries_get_of_absent (mc : MemoryCache T) (now : Int) (k : String)
    (h : mc.entries.find? (keyIs k) = none) :
    ((mc.get now k).2).entries = mc.entries := by
  unfold MemoryCache.get
  rw [h]
  exact entries_withMetrics _ _

end OpLemmas

/-! ## Entry-construction lemmas -/

section SetEntryLemmas

variable {T : Type}

theorem setEntry_of_pos (config : CacheConfig) (now : Int) (v : T)
    {ttl : Int} (h : 0 < ttl) :
    setEntry config now v ttl =
      { value := v, expiresAt := some (now + ttl), createdAt := now,
        accessAt := now, accessCount := 1 } := by
  unfold setEntry
  dsimp only
  rw [if_neg (by omega : ¬ ttl = 0), if_pos h]

theorem setEntry_of_neg (config : CacheConfig) (now : Int) (v : T)
    {ttl : Int} (h : ttl < 0) :
    setEntry config now v ttl =
      { value := v, expiresAt := none, createdAt := now,
        accessAt := now, accessCount := 1 } := by
  unfold setEntry
  dsimp only
  rw [if_neg (by omega : ¬ ttl = 0), if_neg (by omega : ¬ (0 : Int) < ttl)]

theorem setEntry_zero (config : CacheConfig) (now : Int) (v : T) :
    setEntry config now v 0 = setEntry config now v config.defaultTTL := by
  unfold setEntry
  by_cases h0 : config.defaultTTL = 0 <;> simp [h0]

theorem setEntry_zero_of_default_zero (config : CacheConfig) (now : Int)
    (v : T) (h : config.defaultTTL = 0) :
    setEntry config now v 0 =
      { value := v, expiresAt := none, createdAt := now,
        accessAt := now, accessCount := 1 } := by
  unfold setEntry
  simp [h]

end SetEntryLemmas

/-! ## Claim C9: idempotent delete -/

/-- C9: Delete of an absent key changes nothing at all (so neither the
size nor the evictions or deletes counters, and no error); Delete of a
present key removes exactly that key, shrinks the size by one, leaves the
configuration alone and, with metrics enabled, increments exactly the
deletes counter. -/
theorem delete_idempotent {T : Type} (mc : MemoryCache T) (k : String)
    (hnodup : (mc.entries.map Prod.fst).Nodup) :
    (mc.entries.find? (keyIs k) = none → mc.delete k = mc)
    ∧ ((mc.entries.find? (keyIs k)).isSome →
        (mc.delete k).entries.length + 1 = mc.entries.length
        ∧ (mc.delete k).entries.find? (keyIs k) = none
        ∧ (mc.delete k).config = mc.config
        ∧ (mc.config.enableMetrics = true →
            (mc.delete k).metrics =
              { mc.metrics with deletes := mc.metrics.deletes + 1 })
        ∧ (mc.config.enableMetrics = false → (mc.delete k).metrics = mc.metrics)) := by
  constructor
  · intro habs
    unfold MemoryCache.delete
    rw [if_neg (by rw [habs]; simp)]
  · intro hsome
    have hd : mc.delete k =
        ({ mc with entries := mc.entries.eraseP (keyIs k) }).withMetrics
          (fun m => { m with deletes := m.deletes + 1 }) := by
      unfold MemoryCache.delete
      rw [if_pos hsome]
    obtain ⟨p, hp⟩ := Option.isSome_iff_exists.mp hsome
    have hmem : p ∈ mc.entries := List.mem_of_find?_eq_some hp
    have hkey : keyIs k p = true := List.find?_some hp
    have hlen : (mc.entries.eraseP (keyIs k)).length = mc.entries.length - 1 :=
      List.length_eraseP_of_mem hmem hkey
    have hpos : 0 < mc.entries.length := List.length_pos.mpr (List.ne_nil_of_mem hmem)
    refine ⟨?_, ?_, ?_, ?_, ?_⟩
    · rw [entries_delete, hlen]
      omega
    · exact find?_delete_self mc k hnodup
    · exact config_delete mc k
    · intro hm
      rw [hd, metrics_withMetrics_of_enabled
        ({ mc with entries := mc.entries.eraseP (keyIs k) }) _ hm]
    · intro hm
      rw [hd, metrics_withMetrics_of_disabled
        ({ mc with entries := mc.entries.eraseP (keyIs k) }) _ hm]

/-- Witness for C9: a concrete one-entry cache, with an absent key and the
present key. -/
theorem delete_idempotent_witness :
    ((lruScenario3.entries.map Prod.fst).Nodup
      ∧ lruScenario3.entries.find? (keyIs "absent") = none
      ∧ lruScenario3.delete "absent" = lruScenario3)
    ∧ ((lruScenario3.entries.find? (keyIs "B")).isSome
      ∧ (lruScenario3.delete "B").entries.length + 1 = lruScenario3.entries.length
      ∧ (lruScenario3.delete "B").metrics =
          { lruScenario3.metrics with deletes := lruScenario3.metrics.deletes + 1 }) := by
  have habs := delete_idempotent lruScenario3 "absent" (by decide)
  have hpres := delete_idempotent lruScenario3 "B" (by decide)
  refine ⟨⟨by decide, by decide, habs.1 (by decide)⟩,
    ⟨by decide, (hpres.2 (by decide)).1, ((hpres.2 (by decide)).2.2.2.1 (by decide))⟩⟩

/-! ## Claim C10: negative TTL stores a never-expiring entry -/

/-- C10: a Set with a strictly negative TTL does not substitute the
configured default: the stored entry has no expiry instant at all, so Get
and Has report it present at every later time. -/
theorem negative_ttl_never_expires {T : Type} (mc : MemoryCache T) (now : Int)
    (k : String) (v : T) {ttl : Int} (h : ttl < 0) (t : Int) :
    (setEntry mc.config now v ttl).expiresAt = none
    ∧ (mc.set now k v ttl).entries.find? (keyIs k) =
        some (k, setEntry mc.config now v ttl)
    ∧ ((mc.set now k v ttl).get t k).1 = some v
    ∧ (mc.set now k v ttl).has t k = true := by
  have hentry := setEntry_of_neg mc.config now v h
  refine ⟨by rw [hentry], find?_set_self mc now k v ttl, ?_, ?_⟩
  · rw [get_fst, find?_set_self, hentry]
    rfl
  · unfold MemoryCache.has
    rw [find?_set_self, hentry]
    rfl

/-- Witness for C10 at a concrete negative TTL. -/
theorem negative_ttl_never_expires_witness :
    ((-5 : Int) < 0)
    ∧ (setEntry DefaultConfig 0 "v" (-5)).expiresAt = none
    ∧ (((NewMemoryCache String (some DefaultConfig) 0).set 0 "k" "v" (-5)).get
        1000000000000000 "k").1 = some "v"
    ∧ ((NewMemoryCache String (some DefaultConfig) 0).set 0 "k" "v" (-5)).has
        1000000000000000 "k" = true := by
  have h := negative_ttl_never_expires (NewMemoryCache String (some DefaultConfig) 0)
    0 "k" "v" (by decide : (-5 : Int) < 0) 1000000000000000
  exact ⟨by decide, h.1, h.2.2.1, h.2.2.2⟩

/-! ## Claim C3: TTL correctness -/

/-- C3: an entry stored with a positive TTL d is found by Get at every
time strictly before the expiry and gone strictly after it; a TTL of zero
behaves exactly as the configured default TTL, and when that default is
itself zero the entry never expires. -/
theorem ttl_correctness {T : Type} (mc : MemoryCache T) (now : Int)
    (k : String) (v : T) (d t : Int) :
    (0 < d → t < d → ((mc.set now k v d).get (now + t) k).1 = some v)
    ∧ (0 < d → d < t → ((mc.set now k v d).get (now + t) k).1 = none)
    ∧ mc.set now k v 0 = mc.set now k v mc.config.defaultTTL
    ∧ (mc.config.defaultTTL = 0 → ((mc.set now k v 0).get (now + t) k).1 = some v) := by
  refine ⟨?_, ?_, ?_, ?_⟩
  · intro hd ht
    rw [get_fst, find?_set_self, setEntry_of_pos mc.config now v hd]
    dsimp only [CacheEntry.isExpired]
    rw [if_neg (by simp only [decide_eq_true_eq]; omega)]
  · intro hd ht
    rw [get_fst, find?_set_self, setEntry_of_pos mc.config now v hd]
    dsimp only [CacheEntry.isExpired]
    rw [if_pos (by simp only [decide_eq_true_eq]; omega)]
  · unfold MemoryCache.set
    rw [setEntry_zero]
  · intro h0
    rw [get_fst, find?_set_self, setEntry_zero_of_default_zero mc.config now v h0]
    rfl

/-- Witness for C3: an entry with TTL 5 is found at elapsed time 3 and
gone at elapsed time 7, and zero-TTL entries on a zero-default cache
persist. -/
theorem ttl_correctness_witness :
    (0 < (5 : Int)) ∧ ((3 : Int) < 5) ∧ ((5 : Int) < 7)
    ∧ (((NewMemoryCache String (some DefaultConfig) 0).set 10 "k" "v" 5).get
        (10 + 3) "k").1 = some "v"
    ∧ (((NewMemoryCache String (some DefaultConfig) 0).set 10 "k" "v" 5).get
        (10 + 7) "k").1 = none
    ∧ lruScenarioConfig.defaultTTL = 0
    ∧ (((NewMemoryCache String (some lruScenarioConfig) 0).set 10 "k" "v" 0).get
        (10 + 1000000) "k").1 = some "v" := by
  have h3 := ttl_correctness (NewMemoryCache String (some DefaultConfig) 0)
    10 "k" "v" 5 3
  have h7 := ttl_correctness (NewMemoryCache String (some DefaultConfig) 0)
    10 "k" "v" 5 7
  have hz := ttl_correctness (NewMemoryCache String (some lruScenarioConfig) 0)
    10 "k" "v" 5 1000000
  exact ⟨by decide, by decide, by decide,
    h3.1 (by decide) (by decide),
    h7.2.1 (by decide) (by decide),
    by decide,
    hz.2.2.2 (by decide)⟩

/-! ## Claim C6: closed registry degrades to a no-op cache -/

/-- C6: once the registry is closed, GetOrCreateCache hands out a disabled
no-op cache and creates no state; closing is idempotent, a close of an
already-closed manager returning it unchanged; and the no-op cache finds
nothing, accepts mutations without effect and reports size zero. -/
theorem closed_registry_noop {T : Type} (m m₂ : Manager T) (env : String → String)
    (now : Int) (name k : String) (v : T) (ttl : Int)
    (n : NoOpCache T) (h : m.closed = true) :
    GetOrCreateCache m env now name = (CacheRef.noop (NewNoOpCache T), m)
    ∧ Manager.close m = m
    ∧ Manager.close (Manager.close m₂) = Manager.close m₂
    ∧ n.get k = none
    ∧ n.set k v ttl = n
    ∧ n.delete k = n
    ∧ n.clear = n
    ∧ n.size = 0
    ∧ n.has k = false := by
  refine ⟨?_, ?_, ?_, rfl, rfl, rfl, rfl, rfl, rfl⟩
  · unfold GetOrCreateCache
    rw [if_pos h]
  · unfold Manager.close
    rw [if_pos h]
  · unfold Manager.close
    by_cases hc : m₂.closed = true <;> simp [hc]

/-- Witness for C6 on a freshly closed manager. -/
theorem closed_registry_noop_witness :
    (Manager.close (NewManager Nat)).closed = true
    ∧ GetOrCreateCache (Manager.close (NewManager Nat)) (fun _ => "") 0 "users" =
        (CacheRef.noop (NewNoOpCache Nat), Manager.close (NewManager Nat))
    ∧ Manager.close (Manager.close (NewManager Nat)) = Manager.close (NewManager Nat)
    ∧ (NewNoOpCache Nat).get "users" = none := by
  have h := closed_registry_noop (Manager.close (NewManager Nat)) (NewManager Nat)
    (fun _ => "") 0 "users" "users" 0 0 (NewNoOpCache Nat) (by decide)
  exact ⟨by decide, h.1, by decide, h.2.2.2.1⟩

/-! ## Claim C7: upstream errors pass through untouched -/

/-- C7: when a cached read misses (the id key is absent) and the durable
lookup fails, the service returns that very error and the cache entry list
is unchanged; when a durable mutation fails, delete and update return the
error with the cache state untouched. -/
theorem upstream_error_transparency (st : ClipCache) (id : Nat) (now : Int)
    (e : String) (clipboard : Clipboard) (dbGetOld : Except String Clipboard)
    (habsent : st.entries.find? (keyIs (ClipboardCacheKey "id" (toString id))) = none) :
    (GetClipboardByID st (Except.error e) id now).1 = Except.error e
    ∧ ((GetClipboardByID st (Except.error e) id now).2).entries = st.entries
    ∧ DeleteClipboard st (Except.error e) clipboard = (Except.error e, st)
    ∧ UpdateClipboard st dbGetOld (Except.error e) clipboard now = (Except.error e, st) := by
  have hg : st.get now (ClipboardCacheKey "id" (toString id)) =
      (none, st.withMetrics (fun m => { m with misses := m.misses + 1 })) := by
    unfold MemoryCache.get
    rw [habsent]
  refine ⟨?_, ?_, rfl, rfl⟩
  · unfold GetClipboardByID
    dsimp only
    rw [hg]
  · unfold GetClipboardByID
    dsimp only
    rw [hg]
    exact entries_withMetrics _ _

/-- Witness for C7 on a populated concrete cache missing the id-7 key. -/
theorem upstream_error_transparency_witness :
    clipPopulated.entries.find? (keyIs (ClipboardCacheKey "id" (toString 7))) = none
    ∧ (GetClipboardByID clipPopulated (Except.error "db down") 7 5).1 =
        Except.error "db down"
    ∧ ((GetClipboardByID clipPopulated (Except.error "db down") 7 5).2).entries =
        clipPopulated.entries
    ∧ DeleteClipboard clipPopulated (Except.error "db down") clipOld =
        (Except.error "db down", clipPopulated)
    ∧ UpdateClipboard clipPopulated (Except.ok clipOld) (Except.error "db down")
        clipNew 5 = (Except.error "db down", clipPopulated) := by
  have h := upstream_error_transparency clipPopulated 7 5 "db down" clipOld
    (Except.ok clipOld) (by decide)
  have h2 := upstream_error_transparency clipPopulated 7 5 "db down" clipNew
    (Except.ok clipOld) (by decide)
  exact ⟨by decide, h.1, h.2.1, h.2.2.1, h2.2.2.2⟩

/-! ## Claim C1: LRU eviction evicts the tail of the recency list -/

/-- C1: inserting a fresh key into a full cache (size equal to the
positive capacity) evicts exactly the least recently used entry: the new
key list is the new key followed by every old key except the last of the
recency list, and with metrics enabled the evictions counter grows by
one. In particular a key protected by a Get — moved to the front — is
never the one evicted. -/
theorem lru_evicts_least_recently_used {T : Type} (mc : MemoryCache T)
    (now : Int) (k : String) (v : T) (ttl : Int)
    (hfresh : mc.entries.find? (keyIs k) = none)
    (hfull : (mc.entries.length : Int) = mc.config.maxSize)
    (hpos : 0 < mc.config.maxSize) :
    (mc.set now k v ttl).entries.map Prod.fst =
      k :: (mc.entries.map Prod.fst).dropLast
    ∧ (mc.config.enableMetrics = true →
        (mc.set now k v ttl).metrics.evictions = mc.metrics.evictions + 1) := by
  have hne : mc.entries ≠ [] := by
    intro hnil
    rw [hnil] at hfull
    simp at hfull
    omega
  have hcond : 0 < mc.config.maxSize ∧
      mc.config.maxSize <
        ((((k, setEntry mc.config now v ttl) :: mc.entries).length : Nat) : Int) := by
    refine ⟨hpos, ?_⟩
    rw [List.length_cons]
    push_cast
    omega
  have hinner : mc.set now k v ttl =
      (({ mc with entries := (k, setEntry mc.config now v ttl) :: mc.entries } :
          MemoryCache T).evictLRU).withMetrics (fun m => { m with sets := m.sets + 1 }) := by
    unfold MemoryCache.set
    dsimp only
    rw [hfresh]
    rw [if_neg (by simp)]
    rw [if_pos hcond]
  constructor
  · rw [hinner, entries_withMetrics, entries_evictLRU]
    dsimp only
    obtain ⟨b, bs, he⟩ := List.exists_cons_of_ne_nil hne
    rw [he, List.map_dropLast]
    simp only [List.map_cons]
    rw [List.dropLast_cons₂]
  · intro hm
    have hm' : (({ mc with entries := (k, setEntry mc.config now v ttl) :: mc.entries } :
        MemoryCache T).evictLRU).config.enableMetrics = true := by
      rw [config_evictLRU]
      exact hm
    rw [hinner, metrics_withMetrics_of_enabled _ _ hm']
    rw [metrics_evictLRU_of_enabled
      ({ mc with entries := (k, setEntry mc.config now v ttl) :: mc.entries })
      (by simp) hm]

/-- Witness for C1: the capacity-3 scenario Set A, Set B, Set C, Get A,
Set D. The state before the last insert is full with recency order
A, C, B; the insert of D evicts B — the least recently touched key, not
the first-inserted A — leaving the key set A, C, D with one recorded
eviction. -/
theorem lru_evicts_least_recently_used_witness :
    lruScenarioAfterGet.entries.find? (keyIs "D") = none
    ∧ (lruScenarioAfterGet.entries.length : Int) = lruScenarioAfterGet.config.maxSize
    ∧ (0 : Int) < lruScenarioAfterGet.config.maxSize
    ∧ lruScenarioAfterGet.entries.map Prod.fst = ["A", "C", "B"]
    ∧ lruScenarioFinal.entries.map Prod.fst =
        "D" :: (lruScenarioAfterGet.entries.map Prod.fst).dropLast
    ∧ lruScenarioAfterGet.config.enableMetrics = true
    ∧ lruScenarioFinal.metrics.evictions = lruScenarioAfterGet.metrics.evictions + 1
    ∧ lruScenarioFinal.has 6 "A" = true
    ∧ lruScenarioFinal.has 6 "C" = true
    ∧ lruScenarioFinal.has 6 "D" = true
    ∧ lruScenarioFinal.has 6 "B" = false
    ∧ lruScenarioFinal.metrics.evictions = 1 := by
  have h := lru_evicts_least_recently_used lruScenarioAfterGet 5 "D" "d" 0
    (by decide) (by decide) (by decide)
  exact ⟨by decide, by decide, by decide, by decide, h.1, by decide,
    h.2 (by decide), by decide, by decide, by decide, by decide, by decide⟩

/-! ## Claim C2: capacity invariant -/

/-- One Set call keeps the size within a positive capacity and, with
metrics enabled, bumps the evictions counter exactly when a fresh key
lands in a cache already at capacity. -/
theorem set_capacity_step {T : Type} (mc : MemoryCache T) (now : Int) (k : String)
    (v : T) (ttl : Int) (hpos : 0 < mc.config.maxSize)
    (hle : (mc.entries.length : Int) ≤ mc.config.maxSize)
    (hm : mc.config.enableMetrics = true) :
    ((mc.set now k v ttl).entries.length : Int) ≤ mc.config.maxSize
    ∧ (mc.set now k v ttl).metrics.evictions =
        mc.metrics.evictions +
          (if (mc.entries.find? (keyIs k)).isNone ∧
              mc.config.maxSize < (mc.entries.length : Int) + 1 then 1 else 0) := by
  cases hf : mc.entries.find? (keyIs k) with
  | some p =>
    have hinner : mc.set now k v ttl =
        ({ mc with entries := (k, setEntry mc.config now v ttl) ::
            mc.entries.eraseP (keyIs k) } : MemoryCache T).withMetrics
          (fun m => { m with sets := m.sets + 1 }) := by
      unfold MemoryCache.set
      dsimp only
      rw [if_pos (by rw [hf]; simp)]
    have hmem : p ∈ mc.entries := List.mem_of_find?_eq_some hf
    have hkey : keyIs k p = true := List.find?_some hf
    have hlen : (mc.entries.eraseP (keyIs k)).length = mc.entries.length - 1 :=
      List.length_eraseP_of_mem hmem hkey
    have hposlen : 0 < mc.entries.length := List.length_pos.mpr (List.ne_nil_of_mem hmem)
    constructor
    · rw [hinner, entries_withMetrics]
      rw [List.length_cons, hlen]
      push_cast [Nat.sub_add_cancel hposlen]
      omega
    · rw [hinner, metrics_withMetrics_of_enabled
        ({ mc with entries := (k, setEntry mc.config now v ttl) ::
            mc.entries.eraseP (keyIs k) }) _ hm]
      rw [if_neg (by simp)]
      simp
  | none =>
    by_cases hov : mc.config.maxSize < (mc.entries.length : Int) + 1
    · have hne : mc.entries ≠ [] := by
        intro hnil
        rw [hnil] at hov
        simp at hov
        omega
      have hcond : 0 < mc.config.maxSize ∧
          mc.config.maxSize <
            ((((k, setEntry mc.config now v ttl) :: mc.entries).length : Nat) : Int) := by
        refine ⟨hpos, ?_⟩
        rw [List.length_cons]
        push_cast
        omega
      have hinner : mc.set now k v ttl =
          (({ mc with entries := (k, setEntry mc.config now v ttl) :: mc.entries } :
              MemoryCache T).evictLRU).withMetrics
            (fun m => { m with sets := m.sets + 1 }) := by
        unfold MemoryCache.set
        dsimp only
        rw [hf]
        rw [if_neg (by simp)]
        rw [if_pos hcond]
      have hm' : (({ mc with entries := (k, setEntry mc.config now v ttl) :: mc.entries } :
          MemoryCache T).evictLRU).config.enableMetrics = true := by
        rw [config_evictLRU]
        exact hm
      constructor
      · rw [hinner, entries_withMetrics, entries_evictLRU]
        dsimp only
        rw [List.length_dropLast, List.length_cons]
        push_cast
        omega
      · rw [hinner, metrics_withMetrics_of_enabled _ _ hm']
        rw [metrics_evictLRU_of_enabled
          ({ mc with entries := (k, setEntry mc.config now v ttl) :: mc.entries })
          (by simp) hm]
        rw [if_pos (⟨rfl, hov⟩ :
          (none : Option (String × CacheEntry T)).isNone = true ∧
            mc.config.maxSize < (mc.entries.length : Int) + 1)]
    · have hinner : mc.set now k v ttl =
          ({ mc with entries := (k, setEntry mc.config now v ttl) :: mc.entries } :
            MemoryCache T).withMetrics (fun m => { m with sets := m.sets + 1 }) := by
        unfold MemoryCache.set
        dsimp only
        rw [hf]
        rw [if_neg (by simp)]
        rw [if_neg (by
          intro hc
          apply hov
          have h2 := hc.2
          rw [List.length_cons] at h2
          push_cast at h2
          omega)]
      constructor
      · rw [hinner, entries_withMetrics, List.length_cons]
        push_cast
        omega
      · rw [hinner, metrics_withMetrics_of_enabled
          ({ mc with entries := (k, setEntry mc.config now v ttl) :: mc.entries }) _ hm]
        rw [if_neg (by
          intro hc
          exact hov hc.2)]
        simp

/-- Any Set sequence started inside capacity stays inside capacity, and
the evictions counter advances by exactly the number of over-capacity
fresh inserts. -/
theorem applySets_capacity {T : Type} (ops : List (SetOp T)) :
    ∀ mc : MemoryCache T, 0 < mc.config.maxSize →
      (mc.entries.length : Int) ≤ mc.config.maxSize →
      mc.config.enableMetrics = true →
      ((applySets mc ops).entries.length : Int) ≤ mc.config.maxSize
      ∧ (applySets mc ops).metrics.evictions =
          mc.metrics.evictions + countOverCapacity mc ops := by
  induction ops with
  | nil =>
    intro mc hpos hle hm
    refine ⟨hle, ?_⟩
    rw [show applySets mc ([] : List (SetOp T)) = mc from rfl,
      show countOverCapacity mc ([] : List (SetOp T)) = 0 from rfl]
    simp
  | cons op ops ih =>
    intro mc hpos hle hm
    have hstep := set_capacity_step mc op.now op.key op.value op.ttl hpos hle hm
    have hcfg := config_set mc op.now op.key op.value op.ttl
    have ihs := ih (mc.set op.now op.key op.value op.ttl)
      (by rw [hcfg]; exact hpos) (by rw [hcfg]; exact hstep.1) (by rw [hcfg]; exact hm)
    rw [show applySets mc (op :: ops) =
        applySets (mc.set op.now op.key op.value op.ttl) ops from rfl]
    constructor
    · have h1 := ihs.1
      rw [hcfg] at h1
      exact h1
    · rw [ihs.2, hstep.2]
      rw [show countOverCapacity mc (op :: ops) =
          (if (mc.entries.find? (keyIs op.key)).isNone ∧
              mc.config.maxSize < (mc.entries.length : Int) + 1 then 1 else 0)
          + countOverCapacity (mc.set op.now op.key op.value op.ttl) ops from rfl]
      rw [add_assoc]

/-- C2: for every Set sequence on a fresh cache with positive capacity and
metrics enabled, the size after every call stays at or below the capacity,
and the evictions counter equals the number of fresh-key inserts performed
when one more entry would have exceeded the capacity. -/
theorem capacity_invariant {T : Type} (cfg : CacheConfig) (now0 : Int)
    (ops : List (SetOp T)) (hpos : 0 < cfg.maxSize)
    (hm : cfg.enableMetrics = true) :
    ((applySets (NewMemoryCache T (some cfg) now0) ops).entries.length : Int) ≤ cfg.maxSize
    ∧ (applySets (NewMemoryCache T (some cfg) now0) ops).metrics.evictions =
        countOverCapacity (NewMemoryCache T (some cfg) now0) ops := by
  have h := applySets_capacity ops (NewMemoryCache T (some cfg) now0)
    hpos (by exact_mod_cast hpos.le) hm
  refine ⟨h.1, ?_⟩
  rw [h.2]
  rw [show (NewMemoryCache T (some cfg) now0).metrics.evictions = 0 from rfl]
  omega

/-- Witness for C2: on the capacity-2 cache, the four-call sequence
A, B, C, B keeps the size at two and records exactly the one eviction its
single over-capacity fresh insert (C) causes. -/
theorem capacity_invariant_witness :
    ((0 : Int) < capacityScenarioConfig.maxSize)
    ∧ capacityScenarioConfig.enableMetrics = true
    ∧ ((applySets (NewMemoryCache String (some capacityScenarioConfig) 0)
        capacityScenarioOps).entries.length : Int) ≤ capacityScenarioConfig.maxSize
    ∧ (applySets (NewMemoryCache String (some capacityScenarioConfig) 0)
        capacityScenarioOps).metrics.evictions =
        countOverCapacity (NewMemoryCache String (some capacityScenarioConfig) 0)
          capacityScenarioOps
    ∧ (applySets (NewMemoryCache String (some capacityScenarioConfig) 0)
        capacityScenarioOps).entries.length = 2
    ∧ countOverCapacity (NewMemoryCache String (some capacityScenarioConfig) 0)
        capacityScenarioOps = 1 := by
  have h := capacity_invariant capacityScenarioConfig 0 capacityScenarioOps
    (by decide) (by decide)
  exact ⟨by decide, by decide, h.1, h.2, by decide, by decide⟩

/-! ## Claim C8: hit-rate derivation -/

section HitRate

variable {T : Type}

/-- Transfer of the hit-rate invariant along equal projections. -/
theorem hitRateInv_of_same (mc mc' : MemoryCache T) (h : hitRateInv mc)
    (he : mc'.config.enableMetrics = mc.config.enableMetrics)
    (h1 : mc'.metrics.hits = mc.metrics.hits)
    (h2 : mc'.metrics.misses = mc.metrics.misses)
    (h3 : mc'.metrics.hitRate = mc.metrics.hitRate) : hitRateInv mc' := by
  obtain ⟨i1, i2, i3, i4⟩ := h
  refine ⟨?_, ?_, ?_, ?_⟩
  · rw [h1]; exact i1
  · rw [h2]; exact i2
  · rw [h1, h2, h3]; exact i3
  · intro hd
    rw [he] at hd
    obtain ⟨z1, z2, z3⟩ := i4 hd
    exact ⟨by rw [h1]; exact z1, by rw [h2]; exact z2, by rw [h3]; exact z3⟩

/-- Metric mutations that leave hits, misses and the rate alone preserve
the invariant. -/
theorem hitRateInv_withMetrics_preserving (mc : MemoryCache T) (f : Metrics → Metrics)
    (h : hitRateInv mc)
    (hf : ∀ m, (f m).hits = m.hits ∧ (f m).misses = m.misses ∧ (f m).hitRate = m.hitRate) :
    hitRateInv (mc.withMetrics f) := by
  unfold MemoryCache.withMetrics
  split
  · exact hitRateInv_of_same mc _ h rfl (hf _).1 (hf _).2.1 (hf _).2.2
  · exact h

/-- Counting one miss (with any eviction bookkeeping) preserves the
invariant: the total becomes positive, so the zero-total clause is
vacuous. -/
theorem hitRateInv_withMetrics_miss (mc : MemoryCache T) (f : Metrics → Metrics)
    (h : hitRateInv mc)
    (hf1 : ∀ m, (f m).hits = m.hits) (hf2 : ∀ m, (f m).misses = m.misses + 1)
    (_hf3 : ∀ m, (f m).hitRate = m.hitRate) :
    hitRateInv (mc.withMetrics f) := by
  unfold MemoryCache.withMetrics
  split
  · rename_i hm
    obtain ⟨i1, i2, i3, i4⟩ := h
    refine ⟨?_, ?_, ?_, ?_⟩
    · show 0 ≤ (f mc.metrics).hits
      rw [hf1]; exact i1
    · show 0 ≤ (f mc.metrics).misses
      rw [hf2]; omega
    · intro hz
      exfalso
      revert hz
      show (f mc.metrics).hits + (f mc.metrics).misses = 0 → False
      rw [hf1, hf2]
      omega
    · intro hd
      exfalso
      have hd' : mc.config.enableMetrics = false := hd
      rw [hm] at hd'
      exact Bool.noConfusion hd'
  · exact h

theorem hitRateInv_updateHitRate (mc : MemoryCache T) (h : hitRateInv mc) :
    hitRateInv mc.updateHitRate := by
  unfold MemoryCache.updateHitRate
  dsimp only
  split
  · rename_i hpos
    obtain ⟨i1, i2, i3, i4⟩ := h
    refine ⟨i1, i2, ?_, ?_⟩
    · intro hz
      exfalso
      have hz' : mc.metrics.hits + mc.metrics.misses = 0 := hz
      omega
    · intro hd
      obtain ⟨z1, z2, z3⟩ := i4 hd
      refine ⟨z1, z2, ?_⟩
      show (mc.metrics.hits : ℚ) / ((mc.metrics.hits + mc.metrics.misses : Int) : ℚ) = 0
      rw [z1, z2]
      norm_num
  · exact h

theorem hitRateInv_get (mc : MemoryCache T) (now : Int) (key : String)
    (h : hitRateInv mc) : hitRateInv ((mc.get now key).2) := by
  unfold MemoryCache.get
  cases hf : mc.entries.find? (keyIs key) with
  | none =>
    exact hitRateInv_withMetrics_miss mc _ h (fun _ => rfl) (fun _ => rfl) (fun _ => rfl)
  | some p =>
    obtain ⟨a, e⟩ := p
    dsimp only
    split
    · exact hitRateInv_withMetrics_miss _ _
        (hitRateInv_of_same mc _ h rfl rfl rfl rfl)
        (fun _ => rfl) (fun _ => rfl) (fun _ => rfl)
    · dsimp only
      split
      · rename_i hm
        apply hitRateInv_updateHitRate
        obtain ⟨i1, i2, i3, i4⟩ := h
        refine ⟨?_, ?_, ?_, ?_⟩
        · show 0 ≤ mc.metrics.hits + 1
          omega
        · exact i2
        · intro hz
          exfalso
          have hz' : mc.metrics.hits + 1 + mc.metrics.misses = 0 := hz
          omega
        · intro hd
          exfalso
          have hd' : mc.config.enableMetrics = false := hd
          have hm' : mc.config.enableMetrics = true := hm
          rw [hm'] at hd'
          exact Bool.noConfusion hd'
      · exact hitRateInv_of_same mc _ h rfl rfl rfl rfl

theorem hitRateInv_evictLRU (mc : MemoryCache T) (h : hitRateInv mc) :
    hitRateInv mc.evictLRU := by
  unfold MemoryCache.evictLRU
  split
  · exact h
  · exact hitRateInv_withMetrics_preserving _ _
      (hitRateInv_of_same mc _ h rfl rfl rfl rfl) (fun _ => ⟨rfl, rfl, rfl⟩)

theorem hitRateInv_set (mc : MemoryCache T) (now : Int) (key : String) (v : T)
    (ttl : Int) (h : hitRateInv mc) : hitRateInv (mc.set now key v ttl) := by
  unfold MemoryCache.set
  dsimp only
  apply hitRateInv_withMetrics_preserving
  · split
    · exact hitRateInv_of_same mc _ h rfl rfl rfl rfl
    · split
      · exact hitRateInv_evictLRU _ (hitRateInv_of_same mc _ h rfl rfl rfl rfl)
      · exact hitRateInv_of_same mc _ h rfl rfl rfl rfl
  · exact fun m => ⟨rfl, rfl, rfl⟩

theorem hitRateInv_delete (mc : MemoryCache T) (key : String) (h : hitRateInv mc) :
    hitRateInv (mc.delete key) := by
  unfold MemoryCache.delete
  split
  · exact hitRateInv_withMetrics_preserving _ _
      (hitRateInv_of_same mc _ h rfl rfl rfl rfl) (fun _ => ⟨rfl, rfl, rfl⟩)
  · exact h

theorem hitRateInv_clear (mc : MemoryCache T) (now : Int) (h : hitRateInv mc) :
    hitRateInv (mc.clear now) := by
  unfold MemoryCache.clear MemoryCache.withMetrics
  split
  · exact ⟨le_refl 0, le_refl 0, fun _ => rfl, fun _ => ⟨rfl, rfl, rfl⟩⟩
  · exact h

theorem hitRateInv_setDefaultTTL (mc : MemoryCache T) (ttl : Int)
    (h : hitRateInv mc) : hitRateInv (mc.setDefaultTTL ttl) :=
  hitRateInv_of_same mc _ h rfl rfl rfl rfl

theorem hitRateInv_getMetrics (mc : MemoryCache T) (sizeofT : Int)
    (h : hitRateInv mc) : hitRateInv ((mc.getMetrics sizeofT).2) := by
  unfold MemoryCache.getMetrics
  dsimp only
  split
  · exact hitRateInv_updateHitRate _ (hitRateInv_of_same mc _ h rfl rfl rfl rfl)
  · exact h

theorem hitRateInv_cleanupExpired (mc : MemoryCache T) (now : Int)
    (h : hitRateInv mc) : hitRateInv (mc.cleanupExpired now) := by
  unfold MemoryCache.cleanupExpired
  dsimp only
  exact hitRateInv_withMetrics_preserving _ _
    (hitRateInv_of_same mc _ h rfl rfl rfl rfl) (fun _ => ⟨rfl, rfl, rfl⟩)

theorem hitRateInv_applyOp (mc : MemoryCache T) (op : CacheOp T)
    (h : hitRateInv mc) : hitRateInv (applyOp mc op) := by
  cases op with
  | doGet now key => exact hitRateInv_get mc now key h
  | doSet now key v ttl => exact hitRateInv_set mc now key v ttl h
  | doDelete key => exact hitRateInv_delete mc key h
  | doClear now => exact hitRateInv_clear mc now h
  | doSetDefaultTTL ttl => exact hitRateInv_setDefaultTTL mc ttl h
  | doGetMetrics s => exact hitRateInv_getMetrics mc s h
  | doCleanup now => exact hitRateInv_cleanupExpired mc now h

theorem hitRateInv_runOps (ops : List (CacheOp T)) :
    ∀ mc : MemoryCache T, hitRateInv mc → hitRateInv (runOps mc ops) := by
  induction ops with
  | nil => exact fun mc h => h
  | cons op ops ih => exact fun mc h => ih (applyOp mc op) (hitRateInv_applyOp mc op h)

theorem hitRateInv_init (cfg : Option CacheConfig) (now0 : Int) :
    hitRateInv (NewMemoryCache T cfg now0) :=
  ⟨le_refl 0, le_refl 0, fun _ => rfl, fun _ => ⟨rfl, rfl, rfl⟩⟩

/-- The metrics snapshot of any state satisfying the invariant reports a
hit rate equal to hits over hits plus misses, and zero on a zero total. -/
theorem getMetrics_hitRate (mc : MemoryCache T) (sizeofT : Int)
    (h : hitRateInv mc) :
    (mc.getMetrics sizeofT).1.hitRate =
      if (mc.getMetrics sizeofT).1.hits + (mc.getMetrics sizeofT).1.misses = 0 then 0
      else ((mc.getMetrics sizeofT).1.hits : ℚ) /
        (((mc.getMetrics sizeofT).1.hits : ℚ) + ((mc.getMetrics sizeofT).1.misses : ℚ)) := by
  obtain ⟨i1, i2, i3, i4⟩ := h
  unfold MemoryCache.getMetrics
  dsimp only
  split
  · rename_i hm
    unfold MemoryCache.updateHitRate
    dsimp only
    split
    · rename_i hpos
      have hpos' : 0 < mc.metrics.hits + mc.metrics.misses := hpos
      rw [if_neg (by
        show ¬(mc.metrics.hits + mc.metrics.misses = 0)
        omega)]
      show (mc.metrics.hits : ℚ) / ((mc.metrics.hits + mc.metrics.misses : Int) : ℚ) =
        (mc.metrics.hits : ℚ) / ((mc.metrics.hits : ℚ) + (mc.metrics.misses : ℚ))
      push_cast
      rfl
    · rename_i hneg
      have hneg' : ¬(0 : Int) < mc.metrics.hits + mc.metrics.misses := hneg
      rw [if_pos (by
        show mc.metrics.hits + mc.metrics.misses = 0
        omega)]
      exact i3 (by omega)
  · rename_i hm
    have hdis : mc.config.enableMetrics = false := by
      cases hb : mc.config.enableMetrics with
      | false => rfl
      | true => exact absurd hb hm
    obtain ⟨z1, z2, z3⟩ := i4 hdis
    rw [if_pos (by
      show mc.metrics.hits + mc.metrics.misses = 0
      rw [z1, z2]
      ring)]
    exact z3

end HitRate

/-- C8: for any operation sequence on a fresh cache, the hit rate reported
by GetMetrics equals the reported hits divided by the reported total of
hits and misses, and equals zero when that total is zero. -/
theorem hit_rate_derivation {T : Type} (cfg : Option CacheConfig) (now0 : Int)
    (ops : List (CacheOp T)) (sizeofT : Int) :
    ((runOps (NewMemoryCache T cfg now0) ops).getMetrics sizeofT).1.hitRate =
      if ((runOps (NewMemoryCache T cfg now0) ops).getMetrics sizeofT).1.hits +
          ((runOps (NewMemoryCache T cfg now0) ops).getMetrics sizeofT).1.misses = 0
      then 0
      else (((runOps (NewMemoryCache T cfg now0) ops).getMetrics sizeofT).1.hits : ℚ) /
        ((((runOps (NewMemoryCache T cfg now0) ops).getMetrics sizeofT).1.hits : ℚ) +
          (((runOps (NewMemoryCache T cfg now0) ops).getMetrics sizeofT).1.misses : ℚ)) :=
  getMetrics_hitRate (runOps (NewMemoryCache T cfg now0) ops) sizeofT
    (hitRateInv_runOps ops _ (hitRateInv_init cfg now0))

/-! ## Claim C5: configuration resolution order -/

/-- C5, amended: an explicit SetConfig entry for the name wins outright;
otherwise the configuration is built from the environment, where the
default TTL and the maximum size layer hardcoded default, then the global
key, then the name-prefixed key, while the cleanup interval and the
metrics switch are read from the global keys only — their resolved values
depend on nothing but the global variable, whatever name or prefixed
variables are set. With nothing set, the hardcoded defaults stand. -/
theorem config_resolution {T : Type} (m : Manager T) (env env₁ env₂ : String → String)
    (name name₁ name₂ : String) (cfg : CacheConfig) :
    (m.configs.find? (fun q => q.1 == name) = some (name, cfg) →
      m.getConfigForCache env name = (cfg, m))
    ∧ (m.configs.find? (fun q => q.1 == name) = none →
      (m.getConfigForCache env name).1 = ConfigFromEnv env name)
    ∧ ((∀ k, env k = "") → ConfigFromEnv env name = DefaultConfig)
    ∧ (ConfigFromEnv env name).defaultTTL =
        applyDurationSetting (env ("CACHE_" ++ name ++ "_" ++ "TTL"))
          (applyDurationSetting (env "CACHE_DEFAULT_TTL") DefaultConfig.defaultTTL)
    ∧ (ConfigFromEnv env name).maxSize =
        applyMaxSizeSetting (env ("CACHE_" ++ name ++ "_" ++ "MAX_SIZE"))
          (applyMaxSizeSetting (env "CACHE_MAX_SIZE") DefaultConfig.maxSize)
    ∧ (ConfigFromEnv env name).cleanupInterval =
        applyDurationSetting (env "CACHE_CLEANUP_INTERVAL") DefaultConfig.cleanupInterval
    ∧ (ConfigFromEnv env name).enableMetrics =
        applyBoolSetting (env "CACHE_ENABLE_METRICS") DefaultConfig.enableMetrics
    ∧ (env₁ "CACHE_CLEANUP_INTERVAL" = env₂ "CACHE_CLEANUP_INTERVAL" →
        (ConfigFromEnv env₁ name₁).cleanupInterval =
          (ConfigFromEnv env₂ name₂).cleanupInterval)
    ∧ (env₁ "CACHE_ENABLE_METRICS" = env₂ "CACHE_ENABLE_METRICS" →
        (ConfigFromEnv env₁ name₁).enableMetrics =
          (ConfigFromEnv env₂ name₂).enableMetrics) := by
  refine ⟨?_, ?_, ?_, rfl, rfl, rfl, rfl, ?_, ?_⟩
  · intro hfound
    unfold Manager.getConfigForCache
    rw [hfound]
  · intro hnone
    unfold Manager.getConfigForCache
    rw [hnone]
  · intro hempty
    unfold ConfigFromEnv
    simp only [hempty]
    rfl
  · intro hk
    rw [show (ConfigFromEnv env₁ name₁).cleanupInterval =
        applyDurationSetting (env₁ "CACHE_CLEANUP_INTERVAL")
          DefaultConfig.cleanupInterval from rfl,
      show (ConfigFromEnv env₂ name₂).cleanupInterval =
        applyDurationSetting (env₂ "CACHE_CLEANUP_INTERVAL")
          DefaultConfig.cleanupInterval from rfl,
      hk]
  · intro hk
    rw [show (ConfigFromEnv env₁ name₁).enableMetrics =
        applyBoolSetting (env₁ "CACHE_ENABLE_METRICS")
          DefaultConfig.enableMetrics from rfl,
      show (ConfigFromEnv env₂ name₂).enableMetrics =
        applyBoolSetting (env₂ "CACHE_ENABLE_METRICS")
          DefaultConfig.enableMetrics from rfl,
      hk]

/-- Counterexample to C5 as stated: the name-prefixed cleanup-interval and
metrics keys do not override the global ones. With the global cleanup
interval at 7s, a prefixed cleanup interval of 1s and a prefixed metrics
switch set to false, the resolved configuration keeps 7s and metrics stay
enabled. -/
theorem config_prefixed_overrides_counterexample :
    envPrefixed "CACHE_MYCACHE_CLEANUP_INTERVAL" = "1s"
    ∧ parseGoDuration "1s" = some (1 * second)
    ∧ (ConfigFromEnv envPrefixed "MYCACHE").cleanupInterval = 7 * second
    ∧ (7 : Int) * second ≠ 1 * second
    ∧ envPrefixed "CACHE_MYCACHE_ENABLE_METRICS" = "false"
    ∧ (ConfigFromEnv envPrefixed "MYCACHE").enableMetrics = true := by
  exact ⟨rfl, by decide, by decide, by decide, rfl, by decide⟩

/-- Witness for C5 on concrete inputs: the explicitly recorded
configuration wins for its name, and on the layered environment the
prefixed TTL (90s) and max size (7) beat the global 2h and 50 while the
defaults survive where nothing is set. -/
theorem config_resolution_witness :
    managerWithExplicit.configs.find? (fun q => q.1 == "clipboard") =
      some ("clipboard", lruScenarioConfig)
    ∧ managerWithExplicit.getConfigForCache envLayered "clipboard" =
        (lruScenarioConfig, managerWithExplicit)
    ∧ (ConfigFromEnv envLayered "MYCACHE").defaultTTL = 90 * second
    ∧ (ConfigFromEnv envLayered "MYCACHE").maxSize = 7
    ∧ (ConfigFromEnv envLayered "OTHER").defaultTTL = 2 * hour
    ∧ (ConfigFromEnv envLayered "OTHER").maxSize = 50
    ∧ (ConfigFromEnv envLayered "MYCACHE").cleanupInterval =
        DefaultConfig.cleanupInterval
    ∧ (ConfigFromEnv envLayered "MYCACHE").enableMetrics = true
    ∧ ConfigFromEnv (fun _ => "") "MYCACHE" = DefaultConfig := by
  have h := config_resolution managerWithExplicit envLayered envLayered envPrefixed
    "clipboard" "MYCACHE" "OTHER" lruScenarioConfig
  have hempty := config_resolution managerWithExplicit (fun _ => "") envLayered
    envPrefixed "MYCACHE" "MYCACHE" "OTHER" lruScenarioConfig
  exact ⟨by decide, h.1 (by decide), by decide, by decide, by decide, by decide,
    by decide, by decide, hempty.2.2.1 (fun k => rfl)⟩

/-! ## Claim C4: cache-key disjointness and invalidation after update -/

section CacheKeys

theorem string_append_left_cancel {t a b : String} (h : t ++ a = t ++ b) : a = b := by
  have hd : t.data ++ a.data = t.data ++ b.data := by
    have hda := congrArg String.data h
    rwa [String.data_append, String.data_append] at hda
  have hab : a.data = b.data := List.append_cancel_left hd
  cases a
  cases b
  exact congrArg String.mk hab

theorem string_append_ne_of_ne_at {t₁ t₂ : String} (i : Nat) (c₁ c₂ : Char)
    (h₁ : t₁.data[i]? = some c₁) (h₂ : t₂.data[i]? = some c₂) (hc : c₁ ≠ c₂)
    (a b : String) : t₁ ++ a ≠ t₂ ++ b := by
  intro h
  apply hc
  have hd := congrArg String.data h
  rw [String.data_append, String.data_append] at hd
  have hi₁ : i < t₁.data.length := by
    by_contra hlt
    rw [List.getElem?_eq_none (by omega)] at h₁
    exact Option.noConfusion h₁
  have hi₂ : i < t₂.data.length := by
    by_contra hlt
    rw [List.getElem?_eq_none (by omega)] at h₂
    exact Option.noConfusion h₂
  have e₁ : (t₁.data ++ a.data)[i]? = some c₁ := by
    rw [List.getElem?_append, if_pos hi₁]
    exact h₁
  have e₂ : (t₂.data ++ b.data)[i]? = some c₂ := by
    rw [List.getElem?_append, if_pos hi₂]
    exact h₂
  rw [hd, e₂] at e₁
  exact Option.some.inj e₁.symm

theorem titleKey_eq (a : String) :
    ClipboardCacheKey "title" a = "clipboard:title:" ++ a := rfl

theorem contentKey_eq (a : String) :
    ClipboardCacheKey "content" a = "clipboard:content:" ++ a := rfl

theorem idKey_eq (a : String) :
    ClipboardCacheKey "id" a = "clipboard:id:" ++ a := rfl

theorem listKey_eq :
    ClipboardCacheKey "list" "all" = "clipboard:list:" ++ "all" := rfl

theorem listKey_ne_titleKey (a : String) :
    ClipboardCacheKey "list" "all" ≠ ClipboardCacheKey "title" a := by
  rw [listKey_eq, titleKey_eq]
  exact string_append_ne_of_ne_at 10 'l' 't' (by decide) (by decide) (by decide) _ _

theorem contentKey_ne_titleKey (a b : String) :
    ClipboardCacheKey "content" a ≠ ClipboardCacheKey "title" b := by
  rw [contentKey_eq, titleKey_eq]
  exact string_append_ne_of_ne_at 10 'c' 't' (by decide) (by decide) (by decide) _ _

theorem idKey_ne_titleKey (a b : String) :
    ClipboardCacheKey "id" a ≠ ClipboardCacheKey "title" b := by
  rw [idKey_eq, titleKey_eq]
  exact string_append_ne_of_ne_at 10 'i' 't' (by decide) (by decide) (by decide) _ _

theorem titleKey_injective {a b : String}
    (h : ClipboardCacheKey "title" a = ClipboardCacheKey "title" b) : a = b := by
  rw [titleKey_eq, titleKey_eq] at h
  exact string_append_left_cancel h

end CacheKeys

section UpdateInvalidation

/-- The first component of the cached title read, as a pure function of
the cache lookup: a typed hit is served from the cache, anything else is
exactly the durable-store result. -/
theorem getByTitle_fst (st : ClipCache) (db : Except String Clipboard)
    (title : String) (now₂ : Int) :
    (GetClipboardByTitle st db title now₂).1 =
      match (st.get now₂ (ClipboardCacheKey "title" title)).1 with
      | some (CachedValue.clip c) => Except.ok c
      | _ => db := by
  unfold GetClipboardByTitle
  dsimp only
  rcases hg : st.get now₂ (ClipboardCacheKey "title" title) with ⟨cached, st₁⟩
  dsimp only
  cases cached with
  | none => cases db <;> rfl
  | some v =>
    cases v with
    | clip c => rfl
    | str s => cases db <;> rfl
    | clipList l => cases db <;> rfl

/-- The first component of the cached id read, same shape as the title
read. -/
theorem getByID_fst (st : ClipCache) (db : Except String Clipboard)
    (id : Nat) (now₂ : Int) :
    (GetClipboardByID st db id now₂).1 =
      match (st.get now₂ (ClipboardCacheKey "id" (toString id))).1 with
      | some (CachedValue.clip c) => Except.ok c
      | _ => db := by
  unfold GetClipboardByID
  dsimp only
  rcases hg : st.get now₂ (ClipboardCacheKey "id" (toString id)) with ⟨cached, st₁⟩
  dsimp only
  cases cached with
  | none => cases db <;> rfl
  | some v =>
    cases v with
    | clip c => rfl
    | str s => cases db <;> rfl
    | clipList l => cases db <;> rfl

/-- C4, amended: after a successful update that changes the title from A
to B (B nonempty), on a duplicate-free cache with room for the two
write-through entries, a later read by the old title A misses the cache
and returns exactly what the durable store says, a read by the id misses
likewise, but a read by the new title B within the clipboard TTL is
served from the cache with the updated entity, whatever the durable store
would answer — the update wrote the new value through instead of leaving
the new title key to a fresh fetch. -/
theorem update_invalidation (st : ClipCache) (oldC newC : Clipboard)
    (now now₂ : Int)
    (hnodup : (st.entries.map Prod.fst).Nodup)
    (hroom : (st.entries.length : Int) + 2 ≤ st.config.maxSize)
    (htitle : oldC.title ≠ newC.title)
    (hne : newC.title ≠ "")
    (hfresh : now₂ ≤ now + DefaultClipboardTTL) :
    (∀ dbA : Except String Clipboard,
      (GetClipboardByTitle ((UpdateClipboard st (Except.ok oldC) (Except.ok ()) newC now).2)
        dbA oldC.title now₂).1 = dbA)
    ∧ (∀ dbI : Except String Clipboard,
      (GetClipboardByID ((UpdateClipboard st (Except.ok oldC) (Except.ok ()) newC now).2)
        dbI newC.id now₂).1 = dbI)
    ∧ (∀ dbB : Except String Clipboard,
      (GetClipboardByTitle ((UpdateClipboard st (Except.ok oldC) (Except.ok ()) newC now).2)
        dbB newC.title now₂).1 = Except.ok newC) := by
  have h0 : (UpdateClipboard st (Except.ok oldC) (Except.ok ()) newC now).2 =
      updateStep6 st oldC newC now := by
    unfold UpdateClipboard updateStep6 updateStep5 updateStep3
    dsimp only [Except.toOption]
    rw [if_pos htitle, if_pos hne]
  -- configuration is constant along the chain
  have hcfg3 : (updateStep3 st oldC).config = st.config :=
    (config_delete _ _).trans ((config_delete _ _).trans (config_delete _ _))
  -- sizes only shrink along the deletes
  have hl3 : (updateStep3 st oldC).entries.length ≤ st.entries.length :=
    le_trans (length_delete_le _ _)
      (le_trans (length_delete_le _ _) (length_delete_le _ _))
  have hroom3 : ((updateStep3 st oldC).entries.length : Int) <
      (updateStep3 st oldC).config.maxSize := by
    rw [hcfg3]
    omega
  have hcfg4 : ((updateStep3 st oldC).set now (ClipboardCacheKey "title" newC.title)
      (CachedValue.clip newC) DefaultClipboardTTL).config = st.config :=
    (config_set _ _ _ _ _).trans hcfg3
  have hl4 : ((updateStep3 st oldC).set now (ClipboardCacheKey "title" newC.title)
      (CachedValue.clip newC) DefaultClipboardTTL).entries.length ≤
      (updateStep3 st oldC).entries.length + 1 :=
    length_set_of_room_le _ _ _ _ _ hroom3
  have hroom4 : (((updateStep3 st oldC).set now (ClipboardCacheKey "title" newC.title)
      (CachedValue.clip newC) DefaultClipboardTTL).entries.length : Int) <
      ((updateStep3 st oldC).set now (ClipboardCacheKey "title" newC.title)
        (CachedValue.clip newC) DefaultClipboardTTL).config.maxSize := by
    rw [hcfg4]
    omega
  -- key uniqueness along the chain
  have hnodup3 : ((updateStep3 st oldC).entries.map Prod.fst).Nodup :=
    nodup_keys_delete _ _ (nodup_keys_delete _ _ (nodup_keys_delete _ _ hnodup))
  have hnodup4 : (((updateStep3 st oldC).set now (ClipboardCacheKey "title" newC.title)
      (CachedValue.clip newC) DefaultClipboardTTL).entries.map Prod.fst).Nodup :=
    nodup_keys_set_of_room _ _ _ _ _ hroom3 hnodup3
  have hnodup5 : ((updateStep5 st oldC newC now).entries.map Prod.fst).Nodup :=
    nodup_keys_set_of_room _ _ _ _ _ hroom4 hnodup4
  -- the new title key is distinct from the old one
  have htne : ClipboardCacheKey "title" newC.title ≠ ClipboardCacheKey "title" oldC.title :=
    fun h => htitle (titleKey_injective h).symm
  -- lookup of the old title key: gone after the chain
  have ftOld3 : (updateStep3 st oldC).entries.find?
      (keyIs (ClipboardCacheKey "title" oldC.title)) = none := by
    unfold updateStep3
    rw [find?_delete_of_ne _ (contentKey_ne_titleKey _ _)]
    exact find?_delete_self _ _ (nodup_keys_delete _ _ hnodup)
  have ftOld5 : (updateStep5 st oldC newC now).entries.find?
      (keyIs (ClipboardCacheKey "title" oldC.title)) = none := by
    unfold updateStep5
    rw [find?_set_of_ne _ _ _ _ _ hroom4 (contentKey_ne_titleKey _ _)]
    rw [find?_set_of_ne _ _ _ _ _ hroom3 htne]
    exact ftOld3
  have ftOld6 : (updateStep6 st oldC newC now).entries.find?
      (keyIs (ClipboardCacheKey "title" oldC.title)) = none := by
    unfold updateStep6
    rw [find?_delete_of_ne _ (idKey_ne_titleKey _ _)]
    exact ftOld5
  -- lookup of the new title key: the freshly written entry survives
  have ftNew5 : (updateStep5 st oldC newC now).entries.find?
      (keyIs (ClipboardCacheKey "title" newC.title)) =
      some (ClipboardCacheKey "title" newC.title,
        setEntry (updateStep3 st oldC).config now (CachedValue.clip newC)
          DefaultClipboardTTL) := by
    unfold updateStep5
    rw [find?_set_of_ne _ _ _ _ _ hroom4 (contentKey_ne_titleKey _ _)]
    exact find?_set_self _ _ _ _ _
  have ftNew6 : (updateStep6 st oldC newC now).entries.find?
      (keyIs (ClipboardCacheKey "title" newC.title)) =
      some (ClipboardCacheKey "title" newC.title,
        setEntry (updateStep3 st oldC).config now (CachedValue.clip newC)
          DefaultClipboardTTL) := by
    unfold updateStep6
    rw [find?_delete_of_ne _ (idKey_ne_titleKey _ _)]
    exact ftNew5
  -- lookup of the id key: deleted last
  have fid6 : (updateStep6 st oldC newC now).entries.find?
      (keyIs (ClipboardCacheKey "id" (toString newC.id))) = none :=
    find?_delete_self _ _ hnodup5
  have hDpos : (0 : Int) < DefaultClipboardTTL := by decide
  refine ⟨?_, ?_, ?_⟩
  · intro dbA
    rw [h0, getByTitle_fst, get_fst, ftOld6]
  · intro dbI
    rw [h0, getByID_fst, get_fst, fid6]
  · intro dbB
    rw [h0, getByTitle_fst, get_fst, ftNew6,
      setEntry_of_pos (updateStep3 st oldC).config now (CachedValue.clip newC) hDpos]
    dsimp only [CacheEntry.isExpired]
    rw [if_neg (by
      simp only [decide_eq_true_eq]
      omega)]

end UpdateInvalidation

/-- Counterexample to C4 as stated: in the concrete rename of clipboard 1
from title A to title B, a subsequent read by the new title B does not
miss. The new title key is present in the cache, and the read returns the
updated entity even when the durable store is failing — a miss would have
surfaced the error. -/
theorem update_new_title_read_hits :
    (clipUpdated.entries.find? (keyIs (ClipboardCacheKey "title" "B"))).isSome = true
    ∧ (GetClipboardByTitle clipUpdated (Except.error "db down") "B" 4).1 =
        Except.ok clipNew
    ∧ (GetClipboardByTitle clipUpdated (Except.error "db down") "A" 4).1 =
        Except.error "db down"
    ∧ (GetClipboardByID clipUpdated (Except.error "db down") 1 4).1 =
        Except.error "db down" := by
  exact ⟨by decide, by decide, by decide, by decide⟩

/-- Witness for the amended C4 on the concrete populated cache and the
rename of clipboard 1 from A to B. -/
theorem update_invalidation_witness :
    (clipPopulated.entries.map Prod.fst).Nodup
    ∧ ((clipPopulated.entries.length : Int) + 2 ≤ clipPopulated.config.maxSize)
    ∧ clipOld.title ≠ clipNew.title
    ∧ clipNew.title ≠ ""
    ∧ ((4 : Int) ≤ 3 + DefaultClipboardTTL)
    ∧ (GetClipboardByTitle
        ((UpdateClipboard clipPopulated (Except.ok clipOld) (Except.ok ()) clipNew 3).2)
        (Except.error "down") clipOld.title 4).1 = Except.error "down"
    ∧ (GetClipboardByID
        ((UpdateClipboard clipPopulated (Except.ok clipOld) (Except.ok ()) clipNew 3).2)
        (Except.error "down") clipNew.id 4).1 = Except.error "down"
    ∧ (GetClipboardByTitle
        ((UpdateClipboard clipPopulated (Except.ok clipOld) (Except.ok ()) clipNew 3).2)
        (Except.error "down") clipNew.title 4).1 = Except.ok clipNew := by
  have h := update_invalidation clipPopulated clipOld clipNew 3 4
    (by decide) (by decide) (by decide) (by decide) (by decide)
  exact ⟨by decide, by decide, by decide, by decide, by decide,
    h.1 (Except.error "down"), h.2.1 (Except.error "down"), h.2.2 (Except.error "down")⟩

end Api21Cache
